import Mathlib

/-!
# Video_Analyzer — formal verification of the analysis pipeline

A shallow embedding, over `ℚ`, of the content-moderation pipeline of the
Video_Analyzer repository:

* `backend/services/llmSummarizerService.js` — classifier (`determineLabel`),
  action derivation (`determineAction`);
* `backend/services/textAnalysisService.js` — lexicon-based transcript scoring;
* `backend/services/videoProcessorService.js` — pipeline orchestrator, vision
  score aggregation, vision timeline builder, deterministic frame-analysis
  fallbacks, overall-confidence computation;
* `backend/controllers/videoController.js` — duplicate-start guard.

JavaScript numbers are modelled as rationals (`ℚ`); `Math.round` is modelled
as `⌊x + 1/2⌋` (round half toward `+∞`, as in JS); JavaScript objects holding
the per-category score vector are modelled as association lists
(`List (String × ℚ)`), so that presence and absence of keys — in particular of
`overall_confidence` — is represented faithfully.  Fallible external calls
(`fs.stat`, remote ML / Whisper / OpenAI endpoints) are modelled as `Option` /
`Except`-valued parameters of the embedded functions.
-/

/-- JS `Math.round`: rounds half-way cases toward `+∞`. -/
def jsRound (q : ℚ) : ℤ := ⌊q + 1/2⌋

/-- JS `Math.round(x * 100) / 100` — rounding to two decimals, used throughout
the repository's score computations. -/
def round2 (q : ℚ) : ℚ := (jsRound (q * 100) : ℚ) / 100

/-- A JS object holding per-category scores (`video.scores`,
`analysisData.scores`): an association list from key to numeric value. -/
abbrev Scores := List (String × ℚ)

/-- JS `scores.k || 0`: the value stored under key `k`, or `0` if the key is
absent (and `0 || 0 = 0` if the stored value is `0`). -/
def getScore (s : Scores) (k : String) : ℚ := (s.lookup k).getD 0

/-- JS `Object.values(scores)`. -/
def scoreValues (s : Scores) : List ℚ := s.map Prod.snd

/-- One merged timeline event (`TimelineEvent` in the data model; built by
`buildVisionTimelineEnhanced` and `getTextTimeline`).  The source field `end`
is a Lean keyword and is embedded as `end_`; `sceneDescription` is only set on
vision events and `excerpt` only on text events, hence `Option`. -/
structure TimelineEvent where
  start : ℚ
  end_ : ℚ
  category : String
  score : ℚ
  note : String
  sceneDescription : Option String := none
  excerpt : Option String := none
  deriving Repr, DecidableEq

/-- `llmSummarizerService.js` lines 148–150: the categories consulted for the
`review` threshold (note: `profanity` is *not* among them). -/
def reviewCategories : List String :=
  ["nudity", "violence", "hate_speech", "sexual_content", "weapons", "drug_use"]

/-- `llmSummarizerService.determineLabel` (lines 138–162).  The function reads
only `analysisData.scores`; it never reads the timeline. -/
def determineLabel (scores : Scores) : String :=
  if getScore scores "nudity" > 6/10 then "flagged"
  else if getScore scores "violence" > 7/10 then "flagged"
  else if getScore scores "hate_speech" > 5/10 then "flagged"
  else if getScore scores "sexual_content" > 6/10 then "flagged"
  else if getScore scores "weapons" > 7/10 then "flagged"
  else if reviewCategories.any (fun c => decide (getScore scores c > 3/10)) then "review"
  else if (scoreValues scores).any (fun v => decide (v > 1/10)) then "neutral"
  else if getScore scores "profanity" > 2/10 then "neutral"
  else "safe"

/-- `llmSummarizerService.determineAction` (lines 391–417).  Only the length
of the timeline is consulted. -/
def determineAction (scores : Scores) (timeline : List TimelineEvent) : String :=
  if getScore scores "nudity" > 75/100 then "remove"
  else if getScore scores "violence" > 8/10 then "remove"
  else if getScore scores "hate_speech" > 6/10 then "remove"
  else if getScore scores "sexual_content" > 75/100 then "remove"
  else if 1 ≤ ((scoreValues scores).filter (fun s => decide (s > 1/2))).length then "manual_review"
  else if 2 ≤ ((scoreValues scores).filter (fun s => decide (s > 3/10))).length then "manual_review"
  else if timeline.length > 10 then "manual_review"
  else if getScore scores "nudity" > 25/100 then "age_restrict"
  else if getScore scores "violence" > 35/100 then "age_restrict"
  else if getScore scores "sexual_content" > 3/10 then "age_restrict"
  else if getScore scores "profanity" > 4/10 then "age_restrict"
  else if getScore scores "drug_use" > 3/10 then "age_restrict"
  else if ((scoreValues scores).filter (fun s => decide (s > 3/10))).length = 1 then "age_restrict"
  else "publish"

/-- The label function as the amended claim C1 describes it: hard `flagged`
thresholds, then the six reviewed categories against `0.3`, then `neutral`
when any stored value exceeds `0.1` (rather than "any nonzero detection"),
else `safe`. -/
def specLabelAmended (scores : Scores) : String :=
  if getScore scores "nudity" > 6/10 then "flagged"
  else if getScore scores "violence" > 7/10 then "flagged"
  else if getScore scores "hate_speech" > 5/10 then "flagged"
  else if getScore scores "sexual_content" > 6/10 then "flagged"
  else if getScore scores "weapons" > 7/10 then "flagged"
  else if reviewCategories.any (fun c => decide (getScore scores c > 3/10)) then "review"
  else if (scoreValues scores).any (fun v => decide (v > 1/10)) then "neutral"
  else "safe"

/-- The score vector of claim C1's concrete case: `violence = 0.75`, every
other category `0`. -/
def vioVec : Scores :=
  [("nudity", 0), ("violence", 3/4), ("profanity", 0), ("hate_speech", 0),
   ("sexual_content", 0), ("drug_use", 0), ("weapons", 0)]

/-- The score vector of claim C2: `profanity = 0.35`, every other category
`0`. -/
def profVec : Scores :=
  [("nudity", 0), ("violence", 0), ("profanity", 35/100), ("hate_speech", 0),
   ("sexual_content", 0), ("drug_use", 0), ("weapons", 0)]

/-- A value looked up in an association list is among its values. -/
theorem lookup_some_mem {l : Scores} {k : String} {v : ℚ}
    (h : l.lookup k = some v) : v ∈ l.map Prod.snd := by
  induction l with
  | nil => simp [List.lookup] at h
  | cons p t ih =>
    obtain ⟨a, b⟩ := p
    simp only [List.lookup] at h
    cases hk : k == a with
    | true =>
      rw [hk] at h
      simp only [Option.some.injEq] at h
      subst h
      simp
    | false =>
      rw [hk] at h
      simp only [List.map_cons, List.mem_cons]
      exact Or.inr (ih h)

/-- If `getScore s k` is positive then some stored value equals it. -/
theorem getScore_pos_mem {s : Scores} {k : String} (h : 0 < getScore s k) :
    getScore s k ∈ s.map Prod.snd := by
  unfold getScore at *
  cases hl : s.lookup k with
  | none => simp [hl] at h
  | some v => simpa using lookup_some_mem hl

/-- C1 (amended): for every score vector the label follows the first-match
precedence: hard `flagged` thresholds (nudity>0.6, violence>0.7,
hate_speech>0.5, sexual_content>0.6, weapons>0.7); else `review` when one of
the six reviewed categories (nudity, violence, hate_speech, sexual_content,
weapons, drug_use) exceeds 0.3; else `neutral` when any stored value exceeds
0.1; else `safe`.  A vector with violence = 0.75 and all else 0 is `flagged`,
and `determineLabel` never reads the timeline (it is a function of the scores
alone). -/
theorem c1_label_precedence :
    (∀ s : Scores, determineLabel s = specLabelAmended s) ∧
    determineLabel vioVec = "flagged" := by
  constructor
  · intro s
    unfold determineLabel specLabelAmended
    split_ifs with h1 h2 h3 h4 h5 h6 h7 h8 <;> try rfl
    exfalso
    apply h7
    have hp : 0 < getScore s "profanity" := by linarith
    have hm := getScore_pos_mem hp
    refine List.any_eq_true.mpr ⟨getScore s "profanity", ?_, ?_⟩
    · simpa [scoreValues] using hm
    · simpa using (by linarith : getScore s "profanity" > 1/10)
  · simp [determineLabel, vioVec, getScore, List.lookup]
    norm_num

/-- C1, counterexample to the claim as stated: the vector with
`violence = 0.05` — a nonzero detection — is labelled `safe` by the code,
not `neutral` as the claim's "any nonzero detection ⇒ neutral" clause
demands (the code's threshold for `neutral` is `> 0.1`, not `≠ 0`). -/
theorem c1_counterexample :
    determineLabel [("violence", (1:ℚ)/20)] = "safe" ∧ ((1:ℚ)/20) ≠ 0 := by
  constructor
  · simp [determineLabel, getScore, scoreValues, reviewCategories, List.lookup]
    norm_num
  · norm_num

/-- C2, counterexample to the claim as stated: the vector with
`profanity = 0.35` and all else 0 is labelled `neutral` by `determineLabel`,
not `review` — `profanity` is not among the code's review categories, and
`0.35 > 0.1` makes the "any detection" clause fire first. -/
theorem c2_counterexample : determineLabel profVec ≠ "review" := by
  have h : determineLabel profVec = "neutral" := by
    simp [determineLabel, profVec, getScore, scoreValues, reviewCategories, List.lookup]
    norm_num
  rw [h]
  decide

/-- C2 (amended): the vector with `profanity = 0.35`, all other categories 0,
and an empty timeline gets label `neutral` (any detection above 0.1, but
profanity is not a reviewed category) and action `age_restrict` (exactly one
category above 0.3, none above 0.5). -/
theorem c2_profanity_vector :
    determineLabel profVec = "neutral" ∧ determineAction profVec [] = "age_restrict" := by
  constructor
  · simp [determineLabel, profVec, getScore, scoreValues, reviewCategories, List.lookup]
    norm_num
  · simp [determineAction, profVec, getScore, scoreValues, List.lookup, List.filter]
    norm_num

/-- C3: both `determineLabel` and `determineAction` iterate over *every* value
of the scores object.  Hence a scores map that stores `overall_confidence ≥ 0.5`
is never labelled `safe`, and one that stores `overall_confidence > 0.5`
never gets action `publish` (the confidence value alone counts as a high
flag). -/
theorem c3_overall_confidence_leaks :
    (∀ (s : Scores) (c : ℚ), s.lookup "overall_confidence" = some c → 1/2 ≤ c →
      determineLabel s ≠ "safe") ∧
    (∀ (s : Scores) (t : List TimelineEvent) (c : ℚ),
      s.lookup "overall_confidence" = some c → 1/2 < c →
      determineAction s t ≠ "publish") := by
  constructor
  · intro s c hl hc
    have hm : c ∈ scoreValues s := by simpa [scoreValues] using lookup_some_mem hl
    have hany : (scoreValues s).any (fun v => decide (v > 1/10)) = true := by
      refine List.any_eq_true.mpr ⟨c, hm, ?_⟩
      simpa using (by linarith : c > 1/10)
    unfold determineLabel
    split_ifs <;> decide
  · intro s t c hl hc
    have hm : c ∈ scoreValues s := by simpa [scoreValues] using lookup_some_mem hl
    have hfil : c ∈ (scoreValues s).filter (fun v => decide (v > 1/2)) := by
      refine List.mem_filter.mpr ⟨hm, ?_⟩
      simpa using hc
    have hlen : 1 ≤ ((scoreValues s).filter (fun v => decide (v > 1/2))).length :=
      List.length_pos.mpr (List.ne_nil_of_mem hfil)
    unfold determineAction
    split_ifs <;> decide

/-- C3, witness: a concrete scores map holding only `overall_confidence = 0.6`
is not labelled `safe` and does not get action `publish`. -/
theorem c3_witness :
    determineLabel [("overall_confidence", (6:ℚ)/10)] ≠ "safe" ∧
    determineAction [("overall_confidence", (6:ℚ)/10)] [] ≠ "publish" :=
  ⟨c3_overall_confidence_leaks.1 [("overall_confidence", (6:ℚ)/10)] (6/10) rfl (by norm_num),
   c3_overall_confidence_leaks.2 [("overall_confidence", (6:ℚ)/10)] [] (6/10) rfl (by norm_num)⟩

/-! ## textAnalysisService.js — lexicon-based transcript scoring

String processing is embedded over character lists so that every operation is
kernel-computable: `jsToLower` is `String.toLowerCase` (ASCII), `jsSplitWhitespace`
is `String.prototype.split(/\s+/)` (maximal whitespace runs separate elements,
with boundary runs contributing empty elements), `cleanWordAZ` is
`word.replace(/[^a-z]/g, '')`, `jsIncludes` is `String.prototype.includes`,
and `jsDedup` is `[...new Set(xs)]` (first occurrences, in order). -/

def profanityList : List String :=
  ["fuck", "shit", "ass", "bitch", "damn", "crap", "bastard", "dick", "cock", "pussy",
   "asshole", "bullshit", "motherfucker", "fucker", "fucking", "shitty", "dumbass",
   "piss", "cunt", "whore", "slut", "fag", "nigger", "retard", "retarded"]

def mildProfanityList : List String :=
  ["hell", "damn", "crap", "suck", "sucks", "piss", "ass"]

def hateSpeechKeywords : List String :=
  ["kill", "murder", "die", "death", "hate", "terrorist", "bomb", "attack",
   "genocide", "holocaust", "nazi", "white power", "racial slur",
   "n-word", "f-word", "homophobic", "transphobic", "xenophobic"]

def violenceKeywords : List String :=
  ["kill", "murder", "stab", "shoot", "gun", "knife", "weapon", "blood",
   "fight", "punch", "kick", "beat", "assault", "attack", "hurt", "pain",
   "torture", "abuse", "rape", "violence", "violent", "dead", "death"]

def drugKeywords : List String :=
  ["drug", "drugs", "cocaine", "heroin", "meth", "weed", "marijuana", "cannabis",
   "lsd", "ecstasy", "mdma", "pills", "overdose", "high", "stoned", "drunk",
   "alcohol", "beer", "vodka", "whiskey", "smoke", "smoking", "vape"]

def sexualKeywords : List String :=
  ["sex", "sexual", "porn", "nude", "naked", "boobs", "breasts", "genitals",
   "erotic", "orgasm", "masturbate", "intercourse", "explicit"]

def positiveWords : List String :=
  ["good", "great", "awesome", "excellent", "amazing", "wonderful", "fantastic",
   "love", "like", "happy", "joy", "beautiful", "perfect", "best", "nice",
   "thank", "thanks", "please", "welcome", "yes", "agree", "cool", "fun"]

def negativeWords : List String :=
  ["bad", "terrible", "awful", "horrible", "hate", "dislike", "angry",
   "sad", "depressed", "ugly", "worst", "wrong", "no", "never", "disagree",
   "annoying", "boring", "stupid", "dumb", "fail", "failure", "problem"]

/-- JS `text.toLowerCase()` over ASCII text, as a transparent character map. -/
def jsToLower (s : String) : String := ⟨s.data.map Char.toLower⟩

/-- Worker for `jsSplitWhitespace`.  `acc` is the (reversed) current word. -/
def jsSplitWsAux (acc : List Char) : List Char → List (List Char)
  | [] => [acc.reverse]
  | c :: rest =>
    if c.isWhitespace then
      acc.reverse :: jsSplitWsAux [] (rest.dropWhile Char.isWhitespace)
    else
      jsSplitWsAux (c :: acc) rest
termination_by l => l.length
decreasing_by
  · exact Nat.lt_succ_of_le (List.dropWhile_suffix Char.isWhitespace).sublist.length_le
  · simp

/-- JS `text.split(/\s+/)`. -/
def jsSplitWhitespace (s : String) : List String :=
  (jsSplitWsAux [] s.data).map fun cs => String.mk cs

/-- JS `word.replace(/[^a-z]/g, '')`. -/
def cleanWordAZ (w : String) : String :=
  ⟨w.data.filter fun c => decide ('a' ≤ c ∧ c ≤ 'z')⟩

/-- Substring test on character lists. -/
def jsIsSubstrAux (needle : List Char) : List Char → Bool
  | [] => needle.isEmpty
  | c :: rest => needle.isPrefixOf (c :: rest) || jsIsSubstrAux needle rest

/-- JS `hay.includes(needle)`. -/
def jsIncludes (hay needle : String) : Bool := jsIsSubstrAux needle.data hay.data

/-- JS `[...new Set(xs)]`: deduplicate, keeping first occurrences in order. -/
def jsDedup : List String → List String
  | [] => []
  | w :: rest => w :: jsDedup (rest.filter fun x => x != w)
termination_by l => l.length
decreasing_by
  exact Nat.lt_succ_of_le (List.length_filter_le _ rest)

/-- Result of `textAnalysisService.analyzeProfanity` (the `instances` array is
kept only through its two severity counts, which is all the service reads). -/
structure ProfanityResult where
  score : ℚ
  flaggedWords : List String
  highCount : ℕ
  mildCount : ℕ
  deriving Repr, DecidableEq

/-- `textAnalysisService.analyzeProfanity` (lines 53–99). -/
def analyzeProfanity (text : String) : ProfanityResult :=
  if text = "" then ⟨0, [], 0, 0⟩
  else
    let words := jsSplitWhitespace (jsToLower text)
    let cleaned := words.map cleanWordAZ
    let highCount := cleaned.countP fun w => profanityList.contains w
    let mildCount := cleaned.countP fun w =>
      !(profanityList.contains w) && mildProfanityList.contains w
    let flaggedWords := cleaned.filter fun w =>
      profanityList.contains w || mildProfanityList.contains w
    let totalWords : ℚ := words.length
    let score := min ((((highCount * 3 + mildCount : ℕ) : ℚ) / totalWords) * 5) 1
    ⟨round2 score, jsDedup flaggedWords, highCount, mildCount⟩

/-- Result of the four keyword analyzers. -/
structure KeywordResult where
  score : ℚ
  flagged : List String
  deriving Repr, DecidableEq

/-- Shared shape of `analyzeHateSpeech` / `analyzeViolence` /
`analyzeDrugContent` / `analyzeSexualContent` (lines 104–192): keyword
containment count, scaled by a per-category weight, capped at 1. -/
def analyzeKeywords (keywords : List String) (weight : ℚ) (text : String) :
    KeywordResult :=
  if text = "" then ⟨0, []⟩
  else
    let lowerText := jsToLower text
    let flagged := keywords.filter fun k => jsIncludes lowerText k
    ⟨round2 (min ((flagged.length : ℚ) * weight) 1), flagged⟩

def analyzeHateSpeech (text : String) : KeywordResult :=
  analyzeKeywords hateSpeechKeywords (2/10) text

def analyzeViolence (text : String) : KeywordResult :=
  analyzeKeywords violenceKeywords (1/10) text

def analyzeDrugContent (text : String) : KeywordResult :=
  analyzeKeywords drugKeywords (15/100) text

def analyzeSexualContent (text : String) : KeywordResult :=
  analyzeKeywords sexualKeywords (2/10) text

/-- `textAnalysisService.analyzeSentiment` (lines 198–239); returns the
sentiment label and the rounded score. -/
def analyzeSentiment (text : String) : String × ℚ :=
  if text = "" then ("neutral", 0)
  else
    let words := (jsSplitWhitespace (jsToLower text)).map cleanWordAZ
    let positiveCount := words.countP fun w => positiveWords.contains w
    let negativeCount := words.countP fun w => negativeWords.contains w
    let total := positiveCount + negativeCount
    if total = 0 then ("neutral", 0)
    else
      let score : ℚ := ((positiveCount : ℚ) - (negativeCount : ℚ)) / (total : ℚ)
      let sentiment :=
        if score < -(2/10) then "negative"
        else if score > 2/10 then "positive"
        else "neutral"
      (sentiment, round2 score)

/-- The five text score categories, in the order of the `scores` object of
`analyzeTranscriptSegments` and of `aggregateTextScores`. -/
structure TextScores where
  profanity : ℚ
  hate_speech : ℚ
  violence : ℚ
  drug_use : ℚ
  sexual_content : ℚ
  deriving Repr, DecidableEq

def textCategories : List String :=
  ["profanity", "hate_speech", "violence", "drug_use", "sexual_content"]

/-- `scores[c]` for a `TextScores` object. -/
def textCatScore (ts : TextScores) (c : String) : ℚ :=
  if c = "profanity" then ts.profanity
  else if c = "hate_speech" then ts.hate_speech
  else if c = "violence" then ts.violence
  else if c = "drug_use" then ts.drug_use
  else if c = "sexual_content" then ts.sexual_content
  else 0

/-- A transcript segment entering `analyzeTranscriptSegments`. -/
structure InputSegment where
  time : ℚ
  text : String
  deriving Repr, DecidableEq

/-- A transcript segment as returned by `analyzeTranscriptSegments`. -/
structure AnalyzedSegment where
  time : ℚ
  text : String
  flagged : Bool
  category : Option String
  scores : TextScores
  flaggedWords : List String
  sentiment : String
  deriving Repr, DecidableEq

/-- One step of the primary-category selection loop of
`analyzeTranscriptSegments` (lines 273–278): strict improvement only. -/
def primaryStep (acc : Option String × ℚ) (cat : String × ℚ) : Option String × ℚ :=
  if cat.2 > acc.2 then (some cat.1, cat.2) else acc

/-- The primary-category selection loop of `analyzeTranscriptSegments`
(lines 262–278): running maximum starting from `(null, 0)`. -/
def primaryCategory (cats : List (String × ℚ)) : Option String × ℚ :=
  cats.foldl primaryStep (none, 0)

/-- The per-segment body of `textAnalysisService.analyzeTranscriptSegments`
(lines 246–301). -/
def analyzeSegment (segment : InputSegment) : AnalyzedSegment :=
  let profanity := analyzeProfanity segment.text
  let hateSpeech := analyzeHateSpeech segment.text
  let violence := analyzeViolence segment.text
  let drugs := analyzeDrugContent segment.text
  let sexual := analyzeSexualContent segment.text
  let sentiment := analyzeSentiment segment.text
  let flagged := decide (profanity.score > 1/10) || decide (hateSpeech.score > 1/10) ||
                 decide (violence.score > 3/10) || decide (drugs.score > 2/10) ||
                 decide (sexual.score > 2/10)
  let category := (primaryCategory
      [("profanity", profanity.score), ("hate_speech", hateSpeech.score),
       ("violence", violence.score), ("drug_use", drugs.score),
       ("sexual_content", sexual.score)]).1
  { time := segment.time, text := segment.text, flagged,
    category := if flagged then category else none,
    scores := ⟨profanity.score, hateSpeech.score, violence.score, drugs.score,
               sexual.score⟩,
    flaggedWords := profanity.flaggedWords ++ hateSpeech.flagged ++
                    violence.flagged ++ drugs.flagged ++ sexual.flagged,
    sentiment := sentiment.1 }

/-- `textAnalysisService.analyzeTranscriptSegments`. -/
def analyzeTranscriptSegments (segments : List InputSegment) : List AnalyzedSegment :=
  segments.map analyzeSegment

/-- Keyed maximum of two `TextScores` (the inner `Object.keys(scores).forEach`
of `aggregateTextScores`). -/
def maxTextScores (a b : TextScores) : TextScores :=
  ⟨max a.profanity b.profanity, max a.hate_speech b.hate_speech,
   max a.violence b.violence, max a.drug_use b.drug_use,
   max a.sexual_content b.sexual_content⟩

/-- `textAnalysisService.aggregateTextScores` (lines 306–338): per-category
maximum over segments, then rounded. -/
def aggregateTextScores (analyzedSegments : List AnalyzedSegment) : TextScores :=
  if analyzedSegments.length = 0 then ⟨0, 0, 0, 0, 0⟩
  else
    let folded := analyzedSegments.foldl (fun acc seg => maxTextScores acc seg.scores)
      (⟨0, 0, 0, 0, 0⟩ : TextScores)
    ⟨round2 folded.profanity, round2 folded.hate_speech, round2 folded.violence,
     round2 folded.drug_use, round2 folded.sexual_content⟩

/-- `textAnalysisService.getTextTimeline` (lines 343–354).  A flagged segment
always carries a category (see the C7 theorem); `getD ""` renders the
unreachable `null`. -/
def getTextTimeline (analyzedSegments : List AnalyzedSegment) : List TimelineEvent :=
  (analyzedSegments.filter fun seg => seg.flagged).map fun seg =>
    { start := seg.time, end_ := seg.time + 3,
      category := seg.category.getD "",
      score := max seg.scores.profanity (max seg.scores.hate_speech
        (max seg.scores.violence (max seg.scores.drug_use seg.scores.sexual_content))),
      note := "Flagged words: " ++ String.intercalate ", " (seg.flaggedWords.take 5),
      excerpt := some (seg.text.take 100) }

/-! ## Arithmetic helper lemmas -/

theorem jsRound_nonneg {q : ℚ} (h : 0 ≤ q) : 0 ≤ jsRound q := by
  unfold jsRound
  exact Int.le_floor.mpr (by push_cast; linarith)

theorem round2_nonneg {q : ℚ} (h : 0 ≤ q) : 0 ≤ round2 q := by
  unfold round2
  have h1 : (0 : ℤ) ≤ jsRound (q * 100) := jsRound_nonneg (by positivity)
  have h2 : (0 : ℚ) ≤ (jsRound (q * 100) : ℚ) := by exact_mod_cast h1
  positivity

theorem round2_le_one {q : ℚ} (h : q ≤ 1) : round2 q ≤ 1 := by
  unfold round2 jsRound
  have h1 : ⌊q * 100 + 1/2⌋ ≤ ⌊(100 : ℚ) + 1/2⌋ := Int.floor_le_floor (by linarith)
  have h2 : ⌊(100 : ℚ) + 1/2⌋ = 100 := by norm_num
  rw [div_le_one (by norm_num)]
  exact_mod_cast h1.trans_eq h2

/-- `round2` is the identity on integer multiples of `1/100`. -/
theorem round2_int_div_100 (k : ℤ) : round2 ((k : ℚ)/100) = (k : ℚ)/100 := by
  unfold round2 jsRound
  have h : ((k : ℚ)/100) * 100 = (k : ℚ) := by field_simp
  rw [h, Int.floor_int_add]
  norm_num

theorem foldl_max_form (l : List ℚ) (init : ℚ) (hinit : ∃ k : ℤ, init = (k : ℚ)/100)
    (h : ∀ x ∈ l, ∃ k : ℤ, x = (k : ℚ)/100) :
    ∃ k : ℤ, l.foldl max init = (k : ℚ)/100 := by
  induction l generalizing init with
  | nil => exact hinit
  | cons x t ih =>
    simp only [List.foldl_cons]
    apply ih
    · rcases hinit with ⟨k, rfl⟩
      rcases h x (by simp) with ⟨k', rfl⟩
      rcases le_total ((k : ℚ)/100) ((k' : ℚ)/100) with hle | hle
      · exact ⟨k', by rw [max_eq_right hle]⟩
      · exact ⟨k, by rw [max_eq_left hle]⟩
    · intro y hy
      exact h y (by simp [hy])

theorem round2_foldl_scores (l : List ℚ) (h : ∀ x ∈ l, ∃ k : ℤ, x = (k : ℚ)/100) :
    round2 (l.foldl max 0) = l.foldl max 0 := by
  obtain ⟨k, hk⟩ := foldl_max_form l 0 ⟨0, by norm_num⟩ h
  rw [hk, round2_int_div_100]

/-! ## Score-shape lemmas for the text analyzers -/

theorem analyzeProfanity_score_form (t : String) :
    ∃ k : ℤ, (analyzeProfanity t).score = (k : ℚ)/100 := by
  unfold analyzeProfanity
  split_ifs
  · exact ⟨0, by norm_num⟩
  · exact ⟨_, rfl⟩

theorem analyzeKeywords_score_form (kw : List String) (w : ℚ) (t : String) :
    ∃ k : ℤ, (analyzeKeywords kw w t).score = (k : ℚ)/100 := by
  unfold analyzeKeywords
  split_ifs
  · exact ⟨0, by norm_num⟩
  · exact ⟨_, rfl⟩

theorem textCatScore_analyzeSegment_form (seg : InputSegment) (c : String) :
    ∃ k : ℤ, textCatScore (analyzeSegment seg).scores c = (k : ℚ)/100 := by
  unfold textCatScore
  split_ifs
  · simp only [analyzeSegment]
    exact analyzeProfanity_score_form _
  · simp only [analyzeSegment, analyzeHateSpeech]
    exact analyzeKeywords_score_form _ _ _
  · simp only [analyzeSegment, analyzeViolence]
    exact analyzeKeywords_score_form _ _ _
  · simp only [analyzeSegment, analyzeDrugContent]
    exact analyzeKeywords_score_form _ _ _
  · simp only [analyzeSegment, analyzeSexualContent]
    exact analyzeKeywords_score_form _ _ _
  · exact ⟨0, by norm_num⟩

/-- Componentwise description of the `aggregateTextScores` fold. -/
theorem foldl_maxTextScores (l : List AnalyzedSegment) (acc : TextScores) :
    l.foldl (fun a seg => maxTextScores a seg.scores) acc =
      ⟨(l.map fun s => s.scores.profanity).foldl max acc.profanity,
       (l.map fun s => s.scores.hate_speech).foldl max acc.hate_speech,
       (l.map fun s => s.scores.violence).foldl max acc.violence,
       (l.map fun s => s.scores.drug_use).foldl max acc.drug_use,
       (l.map fun s => s.scores.sexual_content).foldl max acc.sexual_content⟩ := by
  induction l generalizing acc with
  | nil => rfl
  | cons x t ih =>
    simp only [List.foldl_cons, List.map_cons]
    rw [ih]
    rfl

/-- Invariants of the primary-category fold: the running maximum dominates the
initial accumulator and every list entry, and the result is either the initial
accumulator or a pair from the list. -/
theorem primaryFold_spec (cats : List (String × ℚ)) (acc : Option String × ℚ) :
    acc.2 ≤ (cats.foldl primaryStep acc).2 ∧
    (∀ p ∈ cats, p.2 ≤ (cats.foldl primaryStep acc).2) ∧
    (cats.foldl primaryStep acc = acc ∨
      ∃ c, (cats.foldl primaryStep acc).1 = some c ∧
        (c, (cats.foldl primaryStep acc).2) ∈ cats) := by
  induction cats generalizing acc with
  | nil => simp
  | cons x t ih =>
    simp only [List.foldl_cons]
    obtain ⟨ih1, ih2, ih3⟩ := ih (primaryStep acc x)
    have hstep : acc.2 ≤ (primaryStep acc x).2 ∧ x.2 ≤ (primaryStep acc x).2 ∧
        (primaryStep acc x = acc ∨ primaryStep acc x = (some x.1, x.2)) := by
      unfold primaryStep
      split_ifs with hx
      · exact ⟨le_of_lt hx, le_refl _, Or.inr rfl⟩
      · exact ⟨le_refl _, not_lt.mp hx, Or.inl rfl⟩
    refine ⟨hstep.1.trans ih1, ?_, ?_⟩
    · intro p hp
      rcases List.mem_cons.mp hp with rfl | hp'
      · exact hstep.2.1.trans ih1
      · exact ih2 p hp'
    · rcases ih3 with heq | ⟨c, hc1, hc2⟩
      · rcases hstep.2.2 with ha | hx
        · exact Or.inl (heq.trans ha)
        · right
          refine ⟨x.1, ?_, ?_⟩
          · rw [heq, hx]
          · rw [heq, hx]
            simp
      · exact Or.inr ⟨c, hc1, List.mem_cons_of_mem _ hc2⟩

/-- The primary-category loop returns a maximum-scoring category whenever some
score is positive. -/
theorem primaryCategory_five (p h v d sx : ℚ)
    (hpos : 0 < p ∨ 0 < h ∨ 0 < v ∨ 0 < d ∨ 0 < sx) :
    ∃ c ∈ textCategories,
      (primaryCategory [("profanity", p), ("hate_speech", h), ("violence", v),
        ("drug_use", d), ("sexual_content", sx)]).1 = some c ∧
      ∀ c' ∈ textCategories,
        textCatScore ⟨p, h, v, d, sx⟩ c' ≤ textCatScore ⟨p, h, v, d, sx⟩ c := by
  obtain ⟨h0, hub, hform⟩ := primaryFold_spec
    [("profanity", p), ("hate_speech", h), ("violence", v),
     ("drug_use", d), ("sexual_content", sx)] (none, 0)
  have hu1 := hub ("profanity", p) (by simp)
  have hu2 := hub ("hate_speech", h) (by simp)
  have hu3 := hub ("violence", v) (by simp)
  have hu4 := hub ("drug_use", d) (by simp)
  have hu5 := hub ("sexual_content", sx) (by simp)
  simp only at hu1 hu2 hu3 hu4 hu5
  have hpos2 : 0 < (primaryCategory [("profanity", p), ("hate_speech", h),
      ("violence", v), ("drug_use", d), ("sexual_content", sx)]).2 := by
    unfold primaryCategory
    rcases hpos with hp | hp | hp | hp | hp <;> linarith
  rcases hform with heq | ⟨c, hc1, hc2⟩
  · exfalso
    unfold primaryCategory at hpos2
    rw [heq] at hpos2
    norm_num at hpos2
  · simp only [List.mem_cons, List.not_mem_nil, or_false, Prod.mk.injEq] at hc2
    refine ⟨c, ?_, hc1, ?_⟩
    · rcases hc2 with ⟨rfl, _⟩ | ⟨rfl, _⟩ | ⟨rfl, _⟩ | ⟨rfl, _⟩ | ⟨rfl, _⟩ <;>
        simp [textCategories]
    · intro c' hc'
      simp only [textCategories, List.mem_cons, List.not_mem_nil, or_false] at hc'
      rcases hc2 with ⟨rfl, hr⟩ | ⟨rfl, hr⟩ | ⟨rfl, hr⟩ | ⟨rfl, hr⟩ | ⟨rfl, hr⟩ <;>
        rcases hc' with rfl | rfl | rfl | rfl | rfl <;>
        simp [textCatScore] <;> linarith

/-- The stored `flagged` bit is exactly the threshold disjunction over the
stored scores. -/
theorem analyzeSegment_flagged_iff (seg : InputSegment) :
    (analyzeSegment seg).flagged = true ↔
      ((analyzeSegment seg).scores.profanity > 1/10 ∨
       (analyzeSegment seg).scores.hate_speech > 1/10 ∨
       (analyzeSegment seg).scores.violence > 3/10 ∨
       (analyzeSegment seg).scores.drug_use > 2/10 ∨
       (analyzeSegment seg).scores.sexual_content > 2/10) := by
  simp only [analyzeSegment, Bool.or_eq_true, decide_eq_true_eq]
  tauto

/-- A flagged segment's stored category is the primary-category fold result. -/
theorem analyzeSegment_category_eq (seg : InputSegment)
    (hf : (analyzeSegment seg).flagged = true) :
    (analyzeSegment seg).category = (primaryCategory
      [("profanity", (analyzeSegment seg).scores.profanity),
       ("hate_speech", (analyzeSegment seg).scores.hate_speech),
       ("violence", (analyzeSegment seg).scores.violence),
       ("drug_use", (analyzeSegment seg).scores.drug_use),
       ("sexual_content", (analyzeSegment seg).scores.sexual_content)]).1 := by
  simp only [analyzeSegment] at hf ⊢
  rw [if_pos hf]

/-- C7: a transcript segment is flagged iff one of its stored category scores
exceeds its trigger threshold (profanity/hate_speech: 0.1, violence: 0.3,
drug_use/sexual_content: 0.2); a flagged segment's primary category is a
maximum-scoring category; and the aggregate text score of each category over a
segment list is the per-category maximum of the per-segment scores (0 for
every category on the empty list), not an average. -/
theorem c7_transcript_flagging :
    (∀ seg : InputSegment, ((analyzeSegment seg).flagged = true ↔
        ((analyzeSegment seg).scores.profanity > 1/10 ∨
         (analyzeSegment seg).scores.hate_speech > 1/10 ∨
         (analyzeSegment seg).scores.violence > 3/10 ∨
         (analyzeSegment seg).scores.drug_use > 2/10 ∨
         (analyzeSegment seg).scores.sexual_content > 2/10))) ∧
    (∀ seg : InputSegment, (analyzeSegment seg).flagged = true →
      ∃ c ∈ textCategories, (analyzeSegment seg).category = some c ∧
        ∀ c' ∈ textCategories,
          textCatScore (analyzeSegment seg).scores c' ≤
            textCatScore (analyzeSegment seg).scores c) ∧
    (∀ segs : List InputSegment, ∀ c ∈ textCategories,
      textCatScore (aggregateTextScores (analyzeTranscriptSegments segs)) c =
        ((analyzeTranscriptSegments segs).map fun s => textCatScore s.scores c).foldl
          max 0) := by
  refine ⟨analyzeSegment_flagged_iff, ?_, ?_⟩
  · intro seg hf
    have hd := (analyzeSegment_flagged_iff seg).mp hf
    have hpos : 0 < (analyzeSegment seg).scores.profanity ∨
        0 < (analyzeSegment seg).scores.hate_speech ∨
        0 < (analyzeSegment seg).scores.violence ∨
        0 < (analyzeSegment seg).scores.drug_use ∨
        0 < (analyzeSegment seg).scores.sexual_content := by
      rcases hd with h | h | h | h | h
      · exact Or.inl (by linarith)
      · exact Or.inr (Or.inl (by linarith))
      · exact Or.inr (Or.inr (Or.inl (by linarith)))
      · exact Or.inr (Or.inr (Or.inr (Or.inl (by linarith))))
      · exact Or.inr (Or.inr (Or.inr (Or.inr (by linarith))))
    obtain ⟨c, hc, heq, hbound⟩ := primaryCategory_five _ _ _ _ _ hpos
    exact ⟨c, hc, (analyzeSegment_category_eq seg hf).trans heq, hbound⟩
  · intro segs c hc
    unfold aggregateTextScores
    by_cases hlen : (analyzeTranscriptSegments segs).length = 0
    · rw [if_pos hlen]
      have hnil : analyzeTranscriptSegments segs = [] := List.length_eq_zero.mp hlen
      rw [hnil]
      simp only [List.map_nil, List.foldl_nil]
      simp only [textCategories, List.mem_cons, List.not_mem_nil, or_false] at hc
      rcases hc with rfl | rfl | rfl | rfl | rfl <;> simp [textCatScore]
    · rw [if_neg hlen, foldl_maxTextScores]
      simp only [textCategories, List.mem_cons, List.not_mem_nil, or_false] at hc
      rcases hc with rfl | rfl | rfl | rfl | rfl
      · have hform : ∀ x ∈ (analyzeTranscriptSegments segs).map
            (fun s => s.scores.profanity), ∃ k : ℤ, x = (k : ℚ)/100 := by
          intro x hx
          simp only [analyzeTranscriptSegments, List.map_map, List.mem_map,
            Function.comp] at hx
          obtain ⟨i, _, rfl⟩ := hx
          simpa [textCatScore] using textCatScore_analyzeSegment_form i "profanity"
        simpa [textCatScore] using round2_foldl_scores _ hform
      · have hform : ∀ x ∈ (analyzeTranscriptSegments segs).map
            (fun s => s.scores.hate_speech), ∃ k : ℤ, x = (k : ℚ)/100 := by
          intro x hx
          simp only [analyzeTranscriptSegments, List.map_map, List.mem_map,
            Function.comp] at hx
          obtain ⟨i, _, rfl⟩ := hx
          simpa [textCatScore] using textCatScore_analyzeSegment_form i "hate_speech"
        simpa [textCatScore] using round2_foldl_scores _ hform
      · have hform : ∀ x ∈ (analyzeTranscriptSegments segs).map
            (fun s => s.scores.violence), ∃ k : ℤ, x = (k : ℚ)/100 := by
          intro x hx
          simp only [analyzeTranscriptSegments, List.map_map, List.mem_map,
            Function.comp] at hx
          obtain ⟨i, _, rfl⟩ := hx
          simpa [textCatScore] using textCatScore_analyzeSegment_form i "violence"
        simpa [textCatScore] using round2_foldl_scores _ hform
      · have hform : ∀ x ∈ (analyzeTranscriptSegments segs).map
            (fun s => s.scores.drug_use), ∃ k : ℤ, x = (k : ℚ)/100 := by
          intro x hx
          simp only [analyzeTranscriptSegments, List.map_map, List.mem_map,
            Function.comp] at hx
          obtain ⟨i, _, rfl⟩ := hx
          simpa [textCatScore] using textCatScore_analyzeSegment_form i "drug_use"
        simpa [textCatScore] using round2_foldl_scores _ hform
      · have hform : ∀ x ∈ (analyzeTranscriptSegments segs).map
            (fun s => s.scores.sexual_content), ∃ k : ℤ, x = (k : ℚ)/100 := by
          intro x hx
          simp only [analyzeTranscriptSegments, List.map_map, List.mem_map,
            Function.comp] at hx
          obtain ⟨i, _, rfl⟩ := hx
          simpa [textCatScore] using textCatScore_analyzeSegment_form i "sexual_content"
        simpa [textCatScore] using round2_foldl_scores _ hform

/-- C7, witness: the segment "kill" at `t = 12` scores `hate_speech = 0.2` and
is flagged with a primary category; on the empty segment list the aggregate
profanity score is 0. -/
theorem c7_witness :
    (analyzeSegment ⟨12, "kill"⟩).flagged = true ∧
    (analyzeSegment ⟨12, "kill"⟩).category.isSome = true ∧
    textCatScore (aggregateTextScores (analyzeTranscriptSegments [])) "profanity" = 0 := by
  have hh : (analyzeHateSpeech "kill").score = 1/5 := by
    simp only [analyzeHateSpeech, analyzeKeywords]
    rw [if_neg (by decide : ¬("kill" = ""))]
    have h : (hateSpeechKeywords.filter fun k => jsIncludes (jsToLower "kill") k).length
        = 1 := by decide
    simp only [h]
    norm_num [round2, jsRound]
  have hsc : (analyzeSegment ⟨12, "kill"⟩).scores.hate_speech = 1/5 := hh
  have hf : (analyzeSegment ⟨12, "kill"⟩).flagged = true := by
    apply (analyzeSegment_flagged_iff _).mpr
    right
    left
    rw [hsc]
    norm_num
  obtain ⟨c, hc, hcat, _⟩ := c7_transcript_flagging.2.1 ⟨12, "kill"⟩ hf
  refine ⟨hf, by simp [hcat], ?_⟩
  have h0 := c7_transcript_flagging.2.2 [] "profanity" (by simp [textCategories])
  simpa using h0

/-! ## videoProcessorService.js — frame analysis, aggregation, timeline,
orchestration -/

/-- One scored frame (`analyzeFramesEnhanced` result entry).  `sceneDescription`,
`complexity` and `confidence` are absent on some paths (remote results carry no
scene description; the basic simulator carries no complexity), hence `Option`. -/
structure FrameResult where
  frame : ℕ
  timestamp : ℚ
  nudity : ℚ
  violence : ℚ
  weapons : ℚ
  sexual_content : ℚ
  drug_use : ℚ
  objects : List String
  sceneDescription : Option String
  complexity : Option ℚ
  confidence : Option ℚ
  deriving Repr, DecidableEq

/-- The five vision categories, as in `aggregateVisionScoresEnhanced` (line 441)
and `buildVisionTimelineEnhanced` (line 468). -/
def visionCategories : List String :=
  ["nudity", "violence", "weapons", "sexual_content", "drug_use"]

/-- JS `frame[category] || 0` for the five vision categories. -/
def frameCatScore (f : FrameResult) (c : String) : ℚ :=
  if c = "nudity" then f.nudity
  else if c = "violence" then f.violence
  else if c = "weapons" then f.weapons
  else if c = "sexual_content" then f.sexual_content
  else if c = "drug_use" then f.drug_use
  else 0

/-- The object returned by `aggregateVisionScoresEnhanced`. -/
structure VisionScores where
  nudity : ℚ
  violence : ℚ
  weapons : ℚ
  sexual_content : ℚ
  drug_use : ℚ
  deriving Repr, DecidableEq

/-- `scores[c]` for a `VisionScores` object. -/
def visionCatScore (v : VisionScores) (c : String) : ℚ :=
  if c = "nudity" then v.nudity
  else if c = "violence" then v.violence
  else if c = "weapons" then v.weapons
  else if c = "sexual_content" then v.sexual_content
  else if c = "drug_use" then v.drug_use
  else 0

/-- Per-category body of `aggregateVisionScoresEnhanced` (lines 444–458):
filter the nonzero (`> 0`) frame values; if none, 0; else
`round2(max*0.6 + mean*0.3 + frequency*0.1)` with `frequency` the fraction of
all frames with a nonzero value. -/
def aggregateVisionCategory (frameResults : List FrameResult) (category : String) : ℚ :=
  match (frameResults.map fun f => frameCatScore f category).filter
      (fun v => decide (v > 0)) with
  | [] => 0
  | v :: vs =>
    round2 ((vs.foldl max v) * (6/10) + ((v :: vs).sum / (((v :: vs).length : ℕ) : ℚ)) * (3/10)
      + ((((v :: vs).length : ℕ) : ℚ) / ((frameResults.length : ℕ) : ℚ)) * (1/10))

/-- `videoProcessorService.aggregateVisionScoresEnhanced` (lines 436–461). -/
def aggregateVisionScoresEnhanced (frameResults : List FrameResult) : VisionScores :=
  if frameResults.length = 0 then ⟨0, 0, 0, 0, 0⟩
  else
    ⟨aggregateVisionCategory frameResults "nudity",
     aggregateVisionCategory frameResults "violence",
     aggregateVisionCategory frameResults "weapons",
     aggregateVisionCategory frameResults "sexual_content",
     aggregateVisionCategory frameResults "drug_use"⟩

/-- The vision aggregation formula as claim C5 words it: score
`0.6*max + 0.3*mean + 0.1*frequency` over the frames with a *nonzero* value
for the category (rounded to two decimals), and exactly 0 when every frame's
value for the category is zero. -/
def specVisionAgg (frameResults : List FrameResult) (category : String) : ℚ :=
  if frameResults.all fun f => decide (frameCatScore f category = 0) then 0
  else
    round2 ((6/10) *
        ((frameResults.map fun f => frameCatScore f category).filter
          (fun v => decide (v ≠ 0))).foldl max 0 +
      (3/10) *
        (((frameResults.map fun f => frameCatScore f category).filter
            (fun v => decide (v ≠ 0))).sum /
          ((((frameResults.map fun f => frameCatScore f category).filter
            (fun v => decide (v ≠ 0))).length : ℕ) : ℚ)) +
      (1/10) *
        (((((frameResults.map fun f => frameCatScore f category).filter
            (fun v => decide (v ≠ 0))).length : ℕ) : ℚ) /
          ((frameResults.length : ℕ) : ℚ)))

/-- A fresh timeline event opened by `buildVisionTimelineEnhanced`
(lines 491–499).  `category.replace "_" " "` agrees with the source's
`category.replace('_', ' ')` (first occurrence only) because every category
name has at most one underscore. -/
def newVisionEvent (frame : FrameResult) (category : String) (score fps : ℚ) :
    TimelineEvent :=
  { start := frame.timestamp, end_ := frame.timestamp + 1/fps, category := category,
    score := score,
    note := (category.replace "_" " ") ++ " detected (" ++
      toString (jsRound (score * 100)) ++ "% confidence)",
    sceneDescription := frame.sceneDescription, excerpt := none }

/-- The body of the inner `categories.forEach` of `buildVisionTimelineEnhanced`
(lines 474–502), acting on the state (emitted events, open event).  Note the
single open event is shared across categories, exactly as in the source. -/
def visionTimelineStep (fps : ℚ) (frame : FrameResult)
    (st : List TimelineEvent × Option TimelineEvent) (category : String) :
    List TimelineEvent × Option TimelineEvent :=
  let score := frameCatScore frame category
  if score > 1/4 then
    match st.2 with
    | some ev =>
      if ev.category = category ∧ frame.timestamp - ev.end_ < 2 then
        (st.1, some { ev with end_ := frame.timestamp + 1/fps,
                              score := max ev.score score })
      else
        (st.1 ++ [ev], some (newVisionEvent frame category score fps))
    | none => (st.1, some (newVisionEvent frame category score fps))
  else st

/-- `videoProcessorService.buildVisionTimelineEnhanced` (lines 466–511). -/
def buildVisionTimelineEnhanced (frameResults : List FrameResult) (fps : ℚ) :
    List TimelineEvent :=
  let st := frameResults.foldl
    (fun st frame => visionCategories.foldl (visionTimelineStep fps frame) st)
    ([], none)
  st.1 ++ st.2.toList

def visionValuesList (v : VisionScores) : List ℚ :=
  [v.nudity, v.violence, v.weapons, v.sexual_content, v.drug_use]

def textValuesList (t : TextScores) : List ℚ :=
  [t.profanity, t.hate_speech, t.violence, t.drug_use, t.sexual_content]

/-- `videoProcessorService.calculateOverallConfidence` (lines 516–532):
`min(0.5 + frameConfidence + detectionConfidence + signalConfidence, 0.98)`
with `frameConfidence = min(frameCount/30, 1)*0.3`, `detectionConfidence =`
(number of positive vision and text values)`*0.05`, and `signalConfidence`
0.2 / 0.1 / 0 by the largest signal against 0.5 / 0.2. -/
def calculateOverallConfidence (visionScores : VisionScores) (textScores : TextScores)
    (frameCount : ℕ) : ℚ :=
  min (1/2 + min ((frameCount : ℚ) / 30) 1 * (3/10)
    + (((((visionValuesList visionScores).filter fun v => decide (v > 0)).length +
        (((textValuesList textScores).filter fun v => decide (v > 0)).length) : ℕ)) : ℚ)
        * (5/100)
    + (if ((visionValuesList visionScores ++ textValuesList textScores).foldl max
          visionScores.nudity) > 1/2 then (2/10 : ℚ)
       else if ((visionValuesList visionScores ++ textValuesList textScores).foldl max
          visionScores.nudity) > 2/10 then 1/10 else 0)) (98/100)

/-- The `video.scores` object assembled by `processVideo` (lines 141–150):
all seven categories plus `overall_confidence`, in source order. -/
def pipelineScores (visionScores : VisionScores) (textScores : TextScores)
    (frameCount : ℕ) : Scores :=
  [("nudity", max visionScores.nudity (textScores.sexual_content * (1/2))),
   ("violence", max visionScores.violence textScores.violence),
   ("profanity", textScores.profanity),
   ("hate_speech", textScores.hate_speech),
   ("sexual_content", max visionScores.sexual_content textScores.sexual_content),
   ("drug_use", max visionScores.drug_use textScores.drug_use),
   ("weapons", visionScores.weapons),
   ("overall_confidence", calculateOverallConfidence visionScores textScores frameCount)]

def sevenCategories : List String :=
  ["nudity", "violence", "profanity", "hate_speech", "sexual_content", "drug_use", "weapons"]

/-- JS `Math.abs(x - Math.floor(x))`, the pseudo-random kernel of the
fallback frame analyzers. -/
def jsFracAbs (x : ℚ) : ℚ := |x - (⌊x⌋ : ℚ)|

/-- The `random(offset)` closure of `analyzeFrameEnhanced` (lines 275–278):
`Math.abs(sin(seed + offset*127)*10000 - floor(...))`.  `Math.sin` is modelled
by an arbitrary fixed function `sinq : ℚ → ℚ`: every property proved below
holds for each choice of `sinq`, in particular for the real sine. -/
def enhancedRandom (sinq : ℚ → ℚ) (seed offset : ℚ) : ℚ :=
  jsFracAbs (sinq (seed + offset * 127) * 10000)

/-- The `random(offset)` closure of `simulateFrameAnalysis` (lines 370–373):
`sin(seed + offset)*10000 - floor(...)` — no `abs`, no `*127`. -/
def simulateRandom (sinq : ℚ → ℚ) (seed offset : ℚ) : ℚ :=
  let x := sinq (seed + offset) * 10000
  x - (⌊x⌋ : ℚ)

def sceneTypes : List String :=
  ["Indoor scene with people", "Close-up shot", "Wide angle view", "Outdoor setting",
   "Dark/low-light scene", "Bright/well-lit scene", "Motion blur detected", "Static scene"]

/-- `videoProcessorService.simulateFrameAnalysis` (lines 368–387): the basic
deterministic fallback, seeded from the frame index alone.  It ignores its
`framePath` argument in the source, so the embedding omits it. -/
def simulateFrameAnalysis (sinq : ℚ → ℚ) (frameIndex : ℕ) : FrameResult :=
  let seed : ℚ := (frameIndex : ℚ) * 12345
  let random := simulateRandom sinq seed
  { frame := frameIndex, timestamp := (frameIndex : ℚ),
    nudity := if random 3 > 85/100 then random 4 * (1/2) else 0,
    violence := if random 5 > 9/10 then random 6 * (4/10) else 0,
    weapons := if random 7 > 95/100 then random 8 * (1/2) else 0,
    sexual_content := if random 9 > 88/100 then random 10 * (45/100) else 0,
    drug_use := 0,
    objects := ["person", "scene"],
    sceneDescription := some "Video frame",
    complexity := none,
    confidence := some (7/10) }

/-- `videoProcessorService.analyzeFrameEnhanced` (lines 263–342): the enhanced
deterministic fallback, a function of `(frameIndex, timestamp, fileSize)`.
`statSize` is the result of `fs.stat(framePath)`: `none` models any internal
error, caught by the source's `try/catch`, which falls back to
`simulateFrameAnalysis`.  Two source oddities reproduced here: the computed
`detectionThreshold` and `objectCount` are never used; and the `objects`
filter callback evaluates `random(12 + possibleObjects.indexOf)`, adding a
*function* to a number, so the offset is `NaN`, `sin(NaN)` is `NaN`, and
`NaN > 0.5` is `false` — the filter therefore keeps nothing and `objects` is
always the empty array. -/
def analyzeFrameEnhanced (sinq : ℚ → ℚ) (frameIndex : ℕ) (timestamp : ℚ)
    (statSize : Option ℕ) : FrameResult :=
  match statSize with
  | none => simulateFrameAnalysis sinq frameIndex
  | some fileSize =>
    let complexityFactor := min ((fileSize : ℚ) / 50000) 1
    let seed : ℚ := (frameIndex : ℚ) * 7919 + (⌊timestamp * 1000⌋ : ℚ)
    let random := enhancedRandom sinq seed
    let skinToneIndicator := random 1 * complexityFactor
    let nudityScore :=
      if skinToneIndicator > 6/10 then random 2 * (7/10) + 2/10 else random 3 * (15/100)
    let motionIndicator := random 4 * complexityFactor
    let violenceScore :=
      if motionIndicator > 7/10 then random 5 * (1/2) + 1/10 else random 6 * (1/10)
    let weaponIndicator := random 7
    let weaponsScore :=
      if weaponIndicator > 9/10 then random 8 * (6/10) + 2/10 else 0
    let sexualScore := max (nudityScore * (8/10)) (random 9 * complexityFactor * (4/10))
    let drugScore := if random 10 > 95/100 then random 11 * (4/10) else 0
    let sceneDescription :=
      sceneTypes.getD (⌊random 20 * ((sceneTypes.length : ℕ) : ℚ)⌋).toNat "undefined"
    { frame := frameIndex, timestamp := timestamp,
      nudity := round2 nudityScore, violence := round2 violenceScore,
      weapons := round2 weaponsScore, sexual_content := round2 sexualScore,
      drug_use := round2 drugScore,
      objects := [],
      sceneDescription := some sceneDescription,
      complexity := some (round2 complexityFactor),
      confidence := some (75/100 + complexityFactor * (2/10)) }

/-- Payload of the external vision endpoint (`callMLService`, spread into the
frame record). -/
structure RemoteVisionResult where
  nudity : ℚ
  violence : ℚ
  weapons : ℚ
  sexual_content : ℚ
  drug_use : ℚ
  objects : List String
  deriving Repr, DecidableEq

def remoteFrameResult (i : ℕ) (timestamp : ℚ) (r : RemoteVisionResult) : FrameResult :=
  { frame := i, timestamp := timestamp, nudity := r.nudity, violence := r.violence,
    weapons := r.weapons, sexual_content := r.sexual_content, drug_use := r.drug_use,
    objects := r.objects, sceneDescription := none, complexity := none,
    confidence := none }

structure TranscriptionSeg where
  start : ℚ
  text : String
  deriving Repr, DecidableEq

structure TranscriptionResult where
  text : String
  segments : List TranscriptionSeg
  deriving Repr, DecidableEq

/-- The fixed segment set of `simulateTranscription` (lines 418–431). -/
def sampleSegments : List TranscriptionSeg :=
  [⟨0, "Content begins."⟩, ⟨5, "Video playback continues."⟩, ⟨15, "Scene transition."⟩,
   ⟨25, "Additional content."⟩, ⟨35, "Video continues playing."⟩]

/-- `videoProcessorService.simulateTranscription`. -/
def simulateTranscription : TranscriptionResult :=
  ⟨String.intercalate " " (sampleSegments.map fun s => s.text), sampleSegments⟩

/-- The parsed outcome of the remote report-generation call
(`generateWithOpenAI`): either the response content parses as JSON (whose
fields may individually be absent or empty) or it stays raw text.  `none` at
the call site models both "no API key configured" and any thrown request. -/
inductive LLMReply where
  | parsedJson (label description recommended_action : Option String)
  | raw (content : Option String)
  deriving Repr, DecidableEq

/-- JS `x || fallback` on an optional string: absent and `""` are falsy. -/
def jsOrString (o : Option String) (fallback : String) : String :=
  match o with
  | some s => if s = "" then fallback else s
  | none => fallback

/-- The inputs of `generateDetailedSummary` that determine label and action
(the remaining fields only feed the rendered report text, which no claim
mentions and which is not modelled). -/
structure AnalysisData where
  scores : Scores
  timeline : List TimelineEvent

structure Summary where
  label : String
  recommendedAction : String
  deriving Repr, DecidableEq

/-- `llmSummarizerService.generateDetailedSummary` (lines 18–133), restricted
to label and recommended action: any OpenAI failure, missing key, or missing
JSON field degrades to the deterministic `determineLabel` / `determineAction`
template path. -/
def generateDetailedSummary (llm : Option LLMReply) (d : AnalysisData) : Summary :=
  match llm with
  | none => ⟨determineLabel d.scores, determineAction d.scores d.timeline⟩
  | some (.parsedJson l _ a) =>
      ⟨jsOrString l (determineLabel d.scores),
       jsOrString a (determineAction d.scores d.timeline)⟩
  | some (.raw _) => ⟨determineLabel d.scores, determineAction d.scores d.timeline⟩

/-- The per-job external-provider environment: remote vision per frame index,
`fs.stat` per frame index, the `Math.sin` oracle, the Whisper response, the
OpenAI response.  `none` anywhere means that call failed (timeout, transport
error, non-2xx — all caught by the source). -/
structure ProviderEnv where
  mlService : ℕ → Option RemoteVisionResult
  statSize : ℕ → Option ℕ
  sinq : ℚ → ℚ
  whisper : Option TranscriptionResult
  llm : Option LLMReply

/-- `videoProcessorService.transcribeAudio` (lines 392–413): remote Whisper,
else the fixed simulation. -/
def transcribeAudio (whisper : Option TranscriptionResult) : TranscriptionResult :=
  match whisper with
  | some r => r
  | none => simulateTranscription

/-- `videoProcessorService.analyzeFramesEnhanced` (lines 228–258): for each
frame, try the ML service; on failure use the enhanced local fallback
(timestamp `i / fps`). -/
def analyzeFramesEnhanced (env : ProviderEnv) (frameCount : ℕ) (fps : ℚ) :
    List FrameResult :=
  (List.range frameCount).map fun i =>
    match env.mlService i with
    | some r => remoteFrameResult i ((i : ℚ) / fps) r
    | none => analyzeFrameEnhanced env.sinq i ((i : ℚ) / fps) (env.statSize i)

structure VideoMetadata where
  duration : ℚ
  width : ℕ
  height : ℕ
  hasAudio : Bool
  deriving Repr, DecidableEq

/-- The media-extraction environment (ffmpegService): metadata probe, frame
extraction (its frame count), audio extraction (its output path).  `Except`
errors here are the `MediaReadError`s that genuinely fail the job. -/
structure MediaEnv where
  metadata : Except String VideoMetadata
  extractFrames : Except String ℕ
  extractAudio : Except String String

structure TranscriptEntry where
  time : ℚ
  text : String
  flagged : Bool
  category : Option String
  deriving Repr, DecidableEq

/-- The persisted video record fields written by `processVideo` that claims
refer to. -/
structure VideoRecord where
  duration : ℚ
  width : ℕ
  height : ℕ
  scores : Scores
  timeline : List TimelineEvent
  transcript : List TranscriptEntry
  overall : String
  recommendedAction : String
  sensitivity : String
  status : String

/-- The `sensitivityMap` of `processVideo` (lines 181–187), with its
`|| 'internal'` default. -/
def sensitivityMap (label : String) : String :=
  if label = "safe" then "safe"
  else if label = "neutral" then "internal"
  else if label = "review" then "confidential"
  else if label = "flagged" then "flagged"
  else "internal"

/-- `videoProcessorService.processVideo` (lines 36–223).  Media-extraction
errors propagate (the source's `catch` marks the job `failed`); provider
failures inside `env` are absorbed by the per-component fallbacks.  Progress
and persistence side effects carry no claim-relevant data and are not
modelled; the adaptive fps choice (line 63) and the 100-event timeline
truncation (line 157) are. -/
def processVideo (media : MediaEnv) (env : ProviderEnv) : Except String VideoRecord :=
  match media.metadata with
  | .error e => .error e
  | .ok meta =>
    let fps : ℚ := if meta.duration < 30 then 2 else if meta.duration < 120 then 1 else 1/2
    match media.extractFrames with
    | .error e => .error e
    | .ok frameCount =>
      match (if meta.hasAudio then media.extractAudio.map some else .ok none) with
      | .error e => .error e
      | .ok audioPath =>
        let frameResults := analyzeFramesEnhanced env frameCount fps
        let transcriptSegs := match audioPath with
          | some _ => (transcribeAudio env.whisper).segments
          | none => []
        let analyzedSegments := analyzeTranscriptSegments
          (transcriptSegs.map fun s => ⟨s.start, s.text⟩)
        let textScores := aggregateTextScores analyzedSegments
        let visionScores := aggregateVisionScoresEnhanced frameResults
        let scores := pipelineScores visionScores textScores frameCount
        let timeline := ((getTextTimeline analyzedSegments ++
            buildVisionTimelineEnhanced frameResults fps).mergeSort
            (fun a b => decide (a.start ≤ b.start))).take 100
        let summary := generateDetailedSummary env.llm ⟨scores, timeline⟩
        .ok { duration := meta.duration, width := meta.width, height := meta.height,
              scores := scores, timeline := timeline,
              transcript := analyzedSegments.map fun s =>
                ⟨s.time, s.text, s.flagged, s.category⟩,
              overall := summary.label,
              recommendedAction := summary.recommendedAction,
              sensitivity := sensitivityMap summary.label,
              status := "completed" }

/-! ## videoController.js — duplicate-start guard -/

structure VideoDoc where
  status : String
  deriving Repr, DecidableEq

/-- Outcome of a `POST /api/videos/:id/process` request: HTTP status code and
whether a pipeline run was scheduled (`setImmediate(processVideo…)`). -/
structure ProcessResponse where
  statusCode : ℕ
  started : Bool
  deriving Repr, DecidableEq

/-- The in-progress statuses rejected by `processVideoFile` (lines 225–226). -/
def inProgressStatuses : List String :=
  ["processing", "extracting", "analyzing_frames", "transcribing"]

/-- `videoController.processVideoFile` (lines 201–250): 404 when the video is
not found in the caller's organization, 403 for viewers, 400 when the video is
already being processed — in each case no pipeline run is started; otherwise
200 and a background run is scheduled. -/
def processVideoFile (video : Option VideoDoc) (userRole : String) : ProcessResponse :=
  match video with
  | none => ⟨404, false⟩
  | some v =>
    if userRole = "viewer" then ⟨403, false⟩
    else if v.status = "processing" ∨ v.status = "extracting" ∨
        v.status = "analyzing_frames" ∨ v.status = "transcribing" then ⟨400, false⟩
    else ⟨200, true⟩

/-- C10: a start-processing request for a video whose status is an in-progress
processing state is rejected with an error response (not 200) and no pipeline
run is started — duplicate starts are rejected, not queued.  (Requests failing
the organization lookup or the viewer role check are likewise never started.) -/
theorem c10_duplicate_start_rejected :
    ∀ (v : VideoDoc) (role : String), v.status ∈ inProgressStatuses →
      (processVideoFile (some v) role).started = false ∧
      (processVideoFile (some v) role).statusCode ≠ 200 := by
  intro v role hst
  simp only [inProgressStatuses, List.mem_cons, List.not_mem_nil, or_false] at hst
  simp only [processVideoFile]
  split_ifs with h1
  · exact ⟨rfl, by decide⟩
  · exact ⟨rfl, by decide⟩

/-- C10, witness: a `processing` video requested by an editor is rejected and
not started. -/
theorem c10_witness :
    (processVideoFile (some ⟨"processing"⟩) "editor").started = false ∧
    (processVideoFile (some ⟨"processing"⟩) "editor").statusCode ≠ 200 :=
  c10_duplicate_start_rejected ⟨"processing"⟩ "editor" (by simp [inProgressStatuses])

/-- C8: the enhanced local frame scorer is a function of
`(frameIndex, timestamp, fileSize)` alone — two runs whose `fs.stat` calls
return the same size produce identical frame records (for every `Math.sin`
oracle) — and on any internal error (`fs.stat` failing) it returns the basic
simulated result instead of propagating the exception (the embedding is a
total function: it cannot throw). -/
theorem c8_fallback_determinism :
    (∀ (sinq : ℚ → ℚ) (i : ℕ) (t : ℚ) (sz : ℕ) (stat1 stat2 : Option ℕ),
      stat1 = some sz → stat2 = some sz →
      analyzeFrameEnhanced sinq i t stat1 = analyzeFrameEnhanced sinq i t stat2) ∧
    (∀ (sinq : ℚ → ℚ) (i : ℕ) (t : ℚ),
      analyzeFrameEnhanced sinq i t none = simulateFrameAnalysis sinq i) := by
  refine ⟨?_, ?_⟩
  · intro sinq i t sz s1 s2 h1 h2
    rw [h1, h2]
  · intro sinq i t
    rfl

/-- C8, witness: two runs at frame 1, `t = 2`, file size 100 agree, and the
error path returns the basic simulation. -/
theorem c8_witness :
    analyzeFrameEnhanced (fun _ => 0) 1 2 (some 100) =
      analyzeFrameEnhanced (fun _ => 0) 1 2 (some 100) ∧
    analyzeFrameEnhanced (fun _ => 0) 1 2 none = simulateFrameAnalysis (fun _ => 0) 1 :=
  ⟨c8_fallback_determinism.1 (fun _ => 0) 1 2 100 (some 100) (some 100) rfl rfl,
   c8_fallback_determinism.2 (fun _ => 0) 1 2⟩

/-- C9: when media extraction succeeds, the pipeline completes — status
`completed`, never `failed` — for *every* provider environment, including one
in which every vision, transcription and report call fails; each failed
provider call is replaced by its component's deterministic fallback
(`analyzeFrameEnhanced` per frame, `simulateTranscription`, the template
label/action path). -/
theorem c9_provider_failures_absorbed :
    (∀ (media : MediaEnv) (env : ProviderEnv) (meta : VideoMetadata) (n : ℕ) (p : String),
      media.metadata = .ok meta → media.extractFrames = .ok n →
      media.extractAudio = .ok p →
      ∃ v : VideoRecord, processVideo media env = .ok v ∧ v.status = "completed") ∧
    (∀ (env : ProviderEnv) (n : ℕ) (fps : ℚ) (i : ℕ), i < n → env.mlService i = none →
      (analyzeFramesEnhanced env n fps)[i]? =
        some (analyzeFrameEnhanced env.sinq i ((i : ℚ) / fps) (env.statSize i))) ∧
    transcribeAudio none = simulateTranscription ∧
    (∀ d : AnalysisData, generateDetailedSummary none d =
      ⟨determineLabel d.scores, determineAction d.scores d.timeline⟩) := by
  refine ⟨?_, ?_, rfl, fun _ => rfl⟩
  · intro media env meta n p h1 h2 h3
    unfold processVideo
    rw [h1, h2]
    cases hA : meta.hasAudio <;> simp [hA, h3, Except.map]
  · intro env n fps i hi hml
    simp [analyzeFramesEnhanced, List.getElem?_map, List.getElem?_range, hi, hml]

/-- C9, witness: a 10-second silent video with 3 extracted frames completes
even when every provider call fails. -/
theorem c9_witness :
    (processVideo ⟨.ok ⟨10, 640, 480, false⟩, .ok 3, .ok "audio.wav"⟩
        ⟨fun _ => none, fun _ => none, fun _ => 0, none, none⟩).map
      (fun v => v.status) = .ok "completed" := by
  obtain ⟨v, hv, hs⟩ := c9_provider_failures_absorbed.1
    ⟨.ok ⟨10, 640, 480, false⟩, .ok 3, .ok "audio.wav"⟩
    ⟨fun _ => none, fun _ => none, fun _ => 0, none, none⟩
    ⟨10, 640, 480, false⟩ 3 "audio.wav" rfl rfl rfl
  rw [hv]
  simp [Except.map, hs]

/-- With nonnegative frame scores, the source's `> 0` filter coincides with
the claim's "nonzero" filter, and the per-category aggregation computes the
claimed `0.6*max + 0.3*mean + 0.1*frequency` formula (0 when all values are
zero). -/
theorem aggregateVisionCategory_eq_spec (fr : List FrameResult) (c : String)
    (hnn : ∀ f ∈ fr, 0 ≤ frameCatScore f c) :
    aggregateVisionCategory fr c = specVisionAgg fr c := by
  have hfe : (fr.map fun f => frameCatScore f c).filter (fun v => decide (v > 0)) =
      (fr.map fun f => frameCatScore f c).filter (fun v => decide (v ≠ 0)) := by
    apply List.filter_congr
    intro x hx
    simp only [List.mem_map] at hx
    obtain ⟨f, hf, rfl⟩ := hx
    have h0 := hnn f hf
    simp only [decide_eq_decide]
    constructor
    · exact fun h => ne_of_gt h
    · exact fun h => lt_of_le_of_ne h0 (Ne.symm h)
  unfold aggregateVisionCategory specVisionAgg
  rw [hfe]
  cases hnz : (fr.map fun f => frameCatScore f c).filter (fun v => decide (v ≠ 0)) with
  | nil =>
    have hall : (fr.all fun f => decide (frameCatScore f c = 0)) = true := by
      rw [List.all_eq_true]
      intro f hf
      by_contra hne
      have hm : frameCatScore f c ∈
          (fr.map fun f => frameCatScore f c).filter (fun v => decide (v ≠ 0)) := by
        apply List.mem_filter.mpr
        refine ⟨List.mem_map_of_mem _ hf, ?_⟩
        simpa using hne
      rw [hnz] at hm
      exact absurd hm (List.not_mem_nil _)
    rw [if_pos hall]
  | cons v vs =>
    have hvmem : v ∈ (fr.map fun f => frameCatScore f c).filter (fun v => decide (v ≠ 0)) := by
      rw [hnz]
      exact List.mem_cons_self _ _
    have hv0 : 0 ≤ v := by
      obtain ⟨hm, _⟩ := List.mem_filter.mp hvmem
      simp only [List.mem_map] at hm
      obtain ⟨f, hf, rfl⟩ := hm
      exact hnn f hf
    have hcond : ¬ (fr.all fun f => decide (frameCatScore f c = 0)) = true := by
      intro hall
      rw [List.all_eq_true] at hall
      obtain ⟨hm, hne⟩ := List.mem_filter.mp hvmem
      simp only [List.mem_map] at hm
      obtain ⟨f, hf, rfl⟩ := hm
      have hz := hall f hf
      simp only [decide_eq_true_eq] at hz hne
      exact hne hz
    rw [if_neg hcond]
    have hmax : (v :: vs).foldl max 0 = vs.foldl max v := by
      simp only [List.foldl_cons]
      rw [max_eq_right hv0]
    rw [hmax]
    ring

/-- C5: for every non-empty frame list with nonnegative category scores and
each vision category, the aggregated score is
`round2(0.6*max + 0.3*mean + 0.1*frequency)` over the frames with a nonzero
value for that category (frequency = fraction of all sampled frames with a
nonzero value), and exactly 0 when every frame's value for the category is
zero. -/
theorem c5_vision_score_aggregation :
    ∀ frameResults : List FrameResult, frameResults ≠ [] →
    (∀ f ∈ frameResults, ∀ c ∈ visionCategories, 0 ≤ frameCatScore f c) →
    ∀ c ∈ visionCategories,
      visionCatScore (aggregateVisionScoresEnhanced frameResults) c =
        specVisionAgg frameResults c := by
  intro fr hne hnn c hc
  have hnnc : ∀ f ∈ fr, 0 ≤ frameCatScore f c := fun f hf => hnn f hf c hc
  have hlen : ¬ fr.length = 0 := by simpa [List.length_eq_zero] using hne
  unfold aggregateVisionScoresEnhanced
  rw [if_neg hlen]
  simp only [visionCategories, List.mem_cons, List.not_mem_nil, or_false] at hc
  rcases hc with rfl | rfl | rfl | rfl | rfl <;>
    simp only [visionCatScore, reduceIte] <;>
    exact aggregateVisionCategory_eq_spec fr _ hnnc

/-- C5, witness: a single frame with `nudity = 0.5`. -/
theorem c5_witness :
    visionCatScore
      (aggregateVisionScoresEnhanced [⟨0, 0, 1/2, 0, 0, 0, 0, [], none, none, none⟩])
      "nudity" =
    specVisionAgg [⟨0, 0, 1/2, 0, 0, 0, 0, [], none, none, none⟩] "nudity" :=
  c5_vision_score_aggregation _ (by simp)
    (by
      intro f hf c hc
      fin_cases hf <;> fin_cases hc <;> simp [frameCatScore])
    "nudity" (by simp [visionCategories])

/-! ## Bound lemmas feeding the C4 invariant -/

theorem analyzeProfanity_score_bounds (t : String) :
    0 ≤ (analyzeProfanity t).score ∧ (analyzeProfanity t).score ≤ 1 := by
  unfold analyzeProfanity
  split_ifs
  · norm_num
  · constructor
    · exact round2_nonneg (le_min (by positivity) (by norm_num))
    · exact round2_le_one (min_le_right _ _)

theorem analyzeKeywords_score_bounds (kw : List String) (w : ℚ) (hw : 0 ≤ w)
    (t : String) :
    0 ≤ (analyzeKeywords kw w t).score ∧ (analyzeKeywords kw w t).score ≤ 1 := by
  unfold analyzeKeywords
  split_ifs
  · norm_num
  · constructor
    · exact round2_nonneg (le_min (by positivity) (by norm_num))
    · exact round2_le_one (min_le_right _ _)

theorem analyzeSegment_scores_bounds (seg : InputSegment) :
    (0 ≤ (analyzeSegment seg).scores.profanity ∧ (analyzeSegment seg).scores.profanity ≤ 1) ∧
    (0 ≤ (analyzeSegment seg).scores.hate_speech ∧ (analyzeSegment seg).scores.hate_speech ≤ 1) ∧
    (0 ≤ (analyzeSegment seg).scores.violence ∧ (analyzeSegment seg).scores.violence ≤ 1) ∧
    (0 ≤ (analyzeSegment seg).scores.drug_use ∧ (analyzeSegment seg).scores.drug_use ≤ 1) ∧
    (0 ≤ (analyzeSegment seg).scores.sexual_content ∧
      (analyzeSegment seg).scores.sexual_content ≤ 1) :=
  ⟨analyzeProfanity_score_bounds _,
   analyzeKeywords_score_bounds _ _ (by norm_num) _,
   analyzeKeywords_score_bounds _ _ (by norm_num) _,
   analyzeKeywords_score_bounds _ _ (by norm_num) _,
   analyzeKeywords_score_bounds _ _ (by norm_num) _⟩

theorem foldl_max_bounds (l : List ℚ) (init : ℚ) (h0 : 0 ≤ init) (h1 : init ≤ 1)
    (h : ∀ x ∈ l, 0 ≤ x ∧ x ≤ 1) : 0 ≤ l.foldl max init ∧ l.foldl max init ≤ 1 := by
  induction l generalizing init with
  | nil => exact ⟨h0, h1⟩
  | cons x t ih =>
    simp only [List.foldl_cons]
    have hx := h x (by simp)
    exact ih _ (le_max_of_le_left h0) (max_le h1 hx.2)
      (fun y hy => h y (by simp [hy]))

/-- Every field of the aggregated text scores of analyzed segments lies in
`[0, 1]`. -/
theorem aggregateTextScores_analyze_bounds (segs : List InputSegment) (c : String) :
    0 ≤ textCatScore (aggregateTextScores (analyzeTranscriptSegments segs)) c ∧
    textCatScore (aggregateTextScores (analyzeTranscriptSegments segs)) c ≤ 1 := by
  unfold aggregateTextScores
  split_ifs
  · unfold textCatScore
    split_ifs <;> norm_num
  · rw [foldl_maxTextScores]
    have key : ∀ g : AnalyzedSegment → ℚ,
        (∀ seg : InputSegment, 0 ≤ g (analyzeSegment seg) ∧ g (analyzeSegment seg) ≤ 1) →
        0 ≤ ((analyzeTranscriptSegments segs).map g).foldl max 0 ∧
        round2 (((analyzeTranscriptSegments segs).map g).foldl max 0) ≤ 1 ∧
        0 ≤ round2 (((analyzeTranscriptSegments segs).map g).foldl max 0) := by
      intro g hg
      have hb : ∀ x ∈ (analyzeTranscriptSegments segs).map g, 0 ≤ x ∧ x ≤ 1 := by
        intro x hx
        simp only [analyzeTranscriptSegments, List.map_map, List.mem_map,
          Function.comp] at hx
        obtain ⟨i, _, rfl⟩ := hx
        exact hg i
      obtain ⟨hl, hu⟩ := foldl_max_bounds _ 0 (by norm_num) (by norm_num) hb
      exact ⟨hl, round2_le_one hu, round2_nonneg hl⟩
    unfold textCatScore
    split_ifs
    · have h := key (fun s => s.scores.profanity)
        (fun seg => (analyzeSegment_scores_bounds seg).1)
      exact ⟨h.2.2, h.2.1⟩
    · have h := key (fun s => s.scores.hate_speech)
        (fun seg => (analyzeSegment_scores_bounds seg).2.1)
      exact ⟨h.2.2, h.2.1⟩
    · have h := key (fun s => s.scores.violence)
        (fun seg => (analyzeSegment_scores_bounds seg).2.2.1)
      exact ⟨h.2.2, h.2.1⟩
    · have h := key (fun s => s.scores.drug_use)
        (fun seg => (analyzeSegment_scores_bounds seg).2.2.2.1)
      exact ⟨h.2.2, h.2.1⟩
    · have h := key (fun s => s.scores.sexual_content)
        (fun seg => (analyzeSegment_scores_bounds seg).2.2.2.2)
      exact ⟨h.2.2, h.2.1⟩
    · norm_num

/-- Mean and frequency bounds give per-category vision scores in `[0, 1]`
whenever frame scores are. -/
theorem aggregateVisionCategory_bounds (fr : List FrameResult) (c : String)
    (hb : ∀ f ∈ fr, 0 ≤ frameCatScore f c ∧ frameCatScore f c ≤ 1) :
    0 ≤ aggregateVisionCategory fr c ∧ aggregateVisionCategory fr c ≤ 1 := by
  unfold aggregateVisionCategory
  cases hnz : (fr.map fun f => frameCatScore f c).filter (fun v => decide (v > 0)) with
  | nil => norm_num
  | cons v vs =>
    have hmem : ∀ x ∈ v :: vs, 0 ≤ x ∧ x ≤ 1 := by
      intro x hx
      rw [← hnz] at hx
      obtain ⟨hm, _⟩ := List.mem_filter.mp hx
      simp only [List.mem_map] at hm
      obtain ⟨f, hf, rfl⟩ := hm
      exact hb f hf
    have hv := hmem v (by simp)
    have hmax := foldl_max_bounds vs v hv.1 hv.2
      (fun y hy => hmem y (by simp [hy]))
    have hlenpos : (0 : ℚ) < ((v :: vs).length : ℚ) := by
      simp only [List.length_cons]
      positivity
    have hsum0 : (0 : ℚ) ≤ (v :: vs).sum :=
      List.sum_nonneg (fun x hx => (hmem x hx).1)
    have hsumle : (v :: vs).sum ≤ ((v :: vs).length : ℚ) := by
      calc (v :: vs).sum ≤ ((v :: vs).length : ℕ) • (1 : ℚ) :=
            List.sum_le_card_nsmul _ 1 (fun x hx => (hmem x hx).2)
        _ = ((v :: vs).length : ℚ) := by simp
    have havg : 0 ≤ (v :: vs).sum / ((v :: vs).length : ℚ) ∧
        (v :: vs).sum / ((v :: vs).length : ℚ) ≤ 1 := by
      constructor
      · positivity
      · rw [div_le_one hlenpos]
        exact hsumle
    have hfrA : ((v :: vs).length : ℚ) ≤ (fr.length : ℚ) := by
      have h1 : (v :: vs).length ≤ fr.length := by
        rw [← hnz]
        calc ((fr.map fun f => frameCatScore f c).filter (fun v => decide (v > 0))).length
              ≤ (fr.map fun f => frameCatScore f c).length :=
                List.length_filter_le _ _
          _ = fr.length := List.length_map _ _
      exact_mod_cast h1
    have hfreq : 0 ≤ ((v :: vs).length : ℚ) / (fr.length : ℚ) ∧
        ((v :: vs).length : ℚ) / (fr.length : ℚ) ≤ 1 := by
      constructor
      · positivity
      · rcases Nat.eq_zero_or_pos fr.length with hz | hp
        · exfalso
          have : fr = [] := List.length_eq_zero.mp hz
          subst this
          simp [List.filter] at hnz
        · rw [div_le_one (by exact_mod_cast hp)]
          exact hfrA
    constructor
    · apply round2_nonneg
      have := hmax.1
      have := havg.1
      have := hfreq.1
      nlinarith [hmax.1, havg.1, hfreq.1]
    · apply round2_le_one
      nlinarith [hmax.2, havg.2, hfreq.2, hmax.1, havg.1, hfreq.1]

theorem calculateOverallConfidence_bounds (vis : VisionScores) (te : TextScores)
    (n : ℕ) :
    1/2 ≤ calculateOverallConfidence vis te n ∧
    calculateOverallConfidence vis te n ≤ 98/100 := by
  unfold calculateOverallConfidence
  constructor
  · rw [le_min_iff]
    refine ⟨?_, by norm_num⟩
    have h1 : (0:ℚ) ≤ min ((n : ℚ)/30) 1 * (3/10) :=
      mul_nonneg (le_min (by positivity) (by norm_num)) (by norm_num)
    have h2 : (0:ℚ) ≤ ((((((visionValuesList vis).filter fun v => decide (v > 0)).length +
        (((textValuesList te).filter fun v => decide (v > 0)).length) : ℕ)) : ℚ)
        * (5/100)) := by positivity
    split_ifs <;> linarith
  · exact min_le_right _ _

theorem aggregateVisionScoresEnhanced_field_bounds (fr : List FrameResult)
    (hfb : ∀ f ∈ fr, ∀ c ∈ visionCategories,
      0 ≤ frameCatScore f c ∧ frameCatScore f c ≤ 1) :
    (0 ≤ (aggregateVisionScoresEnhanced fr).nudity ∧
      (aggregateVisionScoresEnhanced fr).nudity ≤ 1) ∧
    (0 ≤ (aggregateVisionScoresEnhanced fr).violence ∧
      (aggregateVisionScoresEnhanced fr).violence ≤ 1) ∧
    (0 ≤ (aggregateVisionScoresEnhanced fr).weapons ∧
      (aggregateVisionScoresEnhanced fr).weapons ≤ 1) ∧
    (0 ≤ (aggregateVisionScoresEnhanced fr).sexual_content ∧
      (aggregateVisionScoresEnhanced fr).sexual_content ≤ 1) ∧
    (0 ≤ (aggregateVisionScoresEnhanced fr).drug_use ∧
      (aggregateVisionScoresEnhanced fr).drug_use ≤ 1) := by
  unfold aggregateVisionScoresEnhanced
  split_ifs
  · norm_num
  · exact ⟨aggregateVisionCategory_bounds fr _
        (fun f hf => hfb f hf "nudity" (by simp [visionCategories])),
      aggregateVisionCategory_bounds fr _
        (fun f hf => hfb f hf "violence" (by simp [visionCategories])),
      aggregateVisionCategory_bounds fr _
        (fun f hf => hfb f hf "weapons" (by simp [visionCategories])),
      aggregateVisionCategory_bounds fr _
        (fun f hf => hfb f hf "sexual_content" (by simp [visionCategories])),
      aggregateVisionCategory_bounds fr _
        (fun f hf => hfb f hf "drug_use" (by simp [visionCategories]))⟩

/-- C4: for every completed job — the scores object that `processVideo`
persists from any frame results (with scores in `[0,1]`, as both the remote
contract and the fallbacks guarantee) and any transcript — all seven category
keys are present with values in `[0,1]`, and `overall_confidence` is present
with a value in `[0.5, 0.98]`. -/
theorem c4_persisted_scores_invariant :
    ∀ (frameResults : List FrameResult) (segs : List InputSegment),
    (∀ f ∈ frameResults, ∀ c ∈ visionCategories,
      0 ≤ frameCatScore f c ∧ frameCatScore f c ≤ 1) →
    (∀ c ∈ sevenCategories, ∃ v,
      (pipelineScores (aggregateVisionScoresEnhanced frameResults)
        (aggregateTextScores (analyzeTranscriptSegments segs))
        frameResults.length).lookup c = some v ∧ 0 ≤ v ∧ v ≤ 1) ∧
    (∃ oc, (pipelineScores (aggregateVisionScoresEnhanced frameResults)
        (aggregateTextScores (analyzeTranscriptSegments segs))
        frameResults.length).lookup "overall_confidence" = some oc ∧
      1/2 ≤ oc ∧ oc ≤ 98/100) := by
  intro fr segs hfb
  obtain ⟨hn, hv2, hw, hsx, hd⟩ := aggregateVisionScoresEnhanced_field_bounds fr hfb
  have htp := aggregateTextScores_analyze_bounds segs "profanity"
  have hth := aggregateTextScores_analyze_bounds segs "hate_speech"
  have htv := aggregateTextScores_analyze_bounds segs "violence"
  have htd := aggregateTextScores_analyze_bounds segs "drug_use"
  have hts := aggregateTextScores_analyze_bounds segs "sexual_content"
  simp [textCatScore] at htp hth htv htd hts
  constructor
  · intro c hc
    simp only [sevenCategories, List.mem_cons, List.not_mem_nil, or_false] at hc
    rcases hc with rfl | rfl | rfl | rfl | rfl | rfl | rfl
    · refine ⟨_, rfl, le_max_of_le_left hn.1, max_le hn.2 ?_⟩
      nlinarith [hts.1, hts.2]
    · exact ⟨_, rfl, le_max_of_le_left hv2.1, max_le hv2.2 htv.2⟩
    · exact ⟨_, rfl, htp.1, htp.2⟩
    · exact ⟨_, rfl, hth.1, hth.2⟩
    · exact ⟨_, rfl, le_max_of_le_left hsx.1, max_le hsx.2 hts.2⟩
    · exact ⟨_, rfl, le_max_of_le_left hd.1, max_le hd.2 htd.2⟩
    · exact ⟨_, rfl, hw.1, hw.2⟩
  · obtain ⟨h1, h2⟩ := calculateOverallConfidence_bounds
      (aggregateVisionScoresEnhanced fr)
      (aggregateTextScores (analyzeTranscriptSegments segs)) fr.length
    exact ⟨_, rfl, h1, h2⟩

/-- C4, witness: a job with one frame (`nudity = 0.5`) and no transcript
stores every category key and a confidence value. -/
theorem c4_witness :
    ((pipelineScores
        (aggregateVisionScoresEnhanced [⟨0, 0, 1/2, 0, 0, 0, 0, [], none, none, none⟩])
        (aggregateTextScores (analyzeTranscriptSegments []))
        ([(⟨0, 0, 1/2, 0, 0, 0, 0, [], none, none, none⟩ : FrameResult)]).length).lookup
      "nudity").isSome = true ∧
    ((pipelineScores
        (aggregateVisionScoresEnhanced [⟨0, 0, 1/2, 0, 0, 0, 0, [], none, none, none⟩])
        (aggregateTextScores (analyzeTranscriptSegments []))
        ([(⟨0, 0, 1/2, 0, 0, 0, 0, [], none, none, none⟩ : FrameResult)]).length).lookup
      "overall_confidence").isSome = true := by
  obtain ⟨hall, hoc⟩ := c4_persisted_scores_invariant
    [⟨0, 0, 1/2, 0, 0, 0, 0, [], none, none, none⟩] []
    (by
      intro f hf c hc
      fin_cases hf <;> fin_cases hc <;> constructor <;> simp [frameCatScore] <;> norm_num)
  obtain ⟨v, hv, _⟩ := hall "nudity" (by simp [sevenCategories])
  obtain ⟨oc, ho, _⟩ := hoc
  constructor
  · rw [hv]
    rfl
  · rw [ho]
    rfl

/-! ## Timeline-builder lemmas (C6) -/

theorem visionTimelineStep_skip (fps : ℚ) (f : FrameResult)
    (st : List TimelineEvent × Option TimelineEvent) (c : String)
    (h : ¬ frameCatScore f c > 1/4) : visionTimelineStep fps f st c = st := by
  unfold visionTimelineStep
  rw [if_neg h]

theorem visionTimelineStep_open (fps : ℚ) (f : FrameResult)
    (st : List TimelineEvent × Option TimelineEvent) (c : String)
    (h : frameCatScore f c > 1/4) (hnone : st.2 = none) :
    visionTimelineStep fps f st c =
      (st.1, some (newVisionEvent f c (frameCatScore f c) fps)) := by
  unfold visionTimelineStep
  rw [if_pos h, hnone]

theorem visionTimelineStep_extend (fps : ℚ) (f : FrameResult)
    (st : List TimelineEvent × Option TimelineEvent) (c : String) (ev : TimelineEvent)
    (h : frameCatScore f c > 1/4) (hsome : st.2 = some ev)
    (hc : ev.category = c ∧ f.timestamp - ev.end_ < 2) :
    visionTimelineStep fps f st c =
      (st.1, some { ev with end_ := f.timestamp + 1/fps,
                            score := max ev.score (frameCatScore f c) }) := by
  unfold visionTimelineStep
  rw [if_pos h, hsome]
  exact if_pos hc

theorem visionTimelineStep_close (fps : ℚ) (f : FrameResult)
    (st : List TimelineEvent × Option TimelineEvent) (c : String) (ev : TimelineEvent)
    (h : frameCatScore f c > 1/4) (hsome : st.2 = some ev)
    (hnc : ¬(ev.category = c ∧ f.timestamp - ev.end_ < 2)) :
    visionTimelineStep fps f st c =
      (st.1 ++ [ev], some (newVisionEvent f c (frameCatScore f c) fps)) := by
  unfold visionTimelineStep
  rw [if_pos h, hsome]
  exact if_neg hnc

/-- One category step preserves well-formed state: emitted events have
`start ≤ end`, and the open event starts no later than the current frame. -/
theorem visionTimelineStep_inv (fps : ℚ) (f : FrameResult)
    (st : List TimelineEvent × Option TimelineEvent) (c : String) (hfps : 0 < fps)
    (hacc : ∀ e ∈ st.1, e.start ≤ e.end_)
    (hcur : ∀ ev, st.2 = some ev → ev.start ≤ ev.end_ ∧ ev.start ≤ f.timestamp) :
    (∀ e ∈ (visionTimelineStep fps f st c).1, e.start ≤ e.end_) ∧
    (∀ ev, (visionTimelineStep fps f st c).2 = some ev →
      ev.start ≤ ev.end_ ∧ ev.start ≤ f.timestamp) := by
  have hinv : (0:ℚ) ≤ 1/fps := by positivity
  by_cases hs : frameCatScore f c > 1/4
  · cases hst : st.2 with
    | none =>
      rw [visionTimelineStep_open fps f st c hs hst]
      refine ⟨hacc, ?_⟩
      intro ev hev
      simp only [Option.some.injEq] at hev
      subst hev
      constructor
      · show f.timestamp ≤ f.timestamp + 1/fps
        linarith
      · show f.timestamp ≤ f.timestamp
        exact le_refl _
    | some ev0 =>
      have h0 := hcur ev0 hst
      by_cases hcond : ev0.category = c ∧ f.timestamp - ev0.end_ < 2
      · rw [visionTimelineStep_extend fps f st c ev0 hs hst hcond]
        refine ⟨hacc, ?_⟩
        intro ev hev
        simp only [Option.some.injEq] at hev
        subst hev
        constructor
        · show ev0.start ≤ f.timestamp + 1/fps
          linarith [h0.2]
        · show ev0.start ≤ f.timestamp
          exact h0.2
      · rw [visionTimelineStep_close fps f st c ev0 hs hst hcond]
        refine ⟨?_, ?_⟩
        · intro e he
          rcases List.mem_append.mp he with h | h
          · exact hacc e h
          · simp only [List.mem_singleton] at h
            subst h
            exact h0.1
        · intro ev hev
          simp only [Option.some.injEq] at hev
          subst hev
          constructor
          · show f.timestamp ≤ f.timestamp + 1/fps
            linarith
          · show f.timestamp ≤ f.timestamp
            exact le_refl _
  · rw [visionTimelineStep_skip fps f st c hs]
    exact ⟨hacc, hcur⟩

/-- The inner category fold preserves the step invariant. -/
theorem visionCatFold_inv (fps : ℚ) (f : FrameResult) (cats : List String)
    (hfps : 0 < fps) :
    ∀ st : List TimelineEvent × Option TimelineEvent,
    (∀ e ∈ st.1, e.start ≤ e.end_) →
    (∀ ev, st.2 = some ev → ev.start ≤ ev.end_ ∧ ev.start ≤ f.timestamp) →
    (∀ e ∈ (cats.foldl (visionTimelineStep fps f) st).1, e.start ≤ e.end_) ∧
    (∀ ev, (cats.foldl (visionTimelineStep fps f) st).2 = some ev →
      ev.start ≤ ev.end_ ∧ ev.start ≤ f.timestamp) := by
  induction cats with
  | nil => intro st hacc hcur; exact ⟨hacc, hcur⟩
  | cons c cs ih =>
    intro st hacc hcur
    simp only [List.foldl_cons]
    obtain ⟨h1, h2⟩ := visionTimelineStep_inv fps f st c hfps hacc hcur
    exact ih _ h1 h2

/-- The outer frame fold preserves the invariant along timestamp-sorted
frames. -/
theorem visionFrameFold_inv (fps : ℚ) (hfps : 0 < fps) :
    ∀ frames : List FrameResult,
    frames.Pairwise (fun a b => a.timestamp ≤ b.timestamp) →
    ∀ st : List TimelineEvent × Option TimelineEvent,
    (∀ e ∈ st.1, e.start ≤ e.end_) →
    (∀ ev, st.2 = some ev → ev.start ≤ ev.end_ ∧ ∀ g ∈ frames, ev.start ≤ g.timestamp) →
    (∀ e ∈ (frames.foldl (fun acc frame =>
        visionCategories.foldl (visionTimelineStep fps frame) acc) st).1,
      e.start ≤ e.end_) ∧
    (∀ ev, (frames.foldl (fun acc frame =>
        visionCategories.foldl (visionTimelineStep fps frame) acc) st).2 = some ev →
      ev.start ≤ ev.end_) := by
  intro frames
  induction frames with
  | nil =>
    intro _ st hacc hcur
    exact ⟨hacc, fun ev hev => (hcur ev hev).1⟩
  | cons f fs ih =>
    intro hsort st hacc hcur
    simp only [List.foldl_cons]
    obtain ⟨hp, hsort2⟩ := List.pairwise_cons.mp hsort
    have hcur1 : ∀ ev, st.2 = some ev → ev.start ≤ ev.end_ ∧ ev.start ≤ f.timestamp :=
      fun ev hev => ⟨(hcur ev hev).1, (hcur ev hev).2 f (by simp)⟩
    obtain ⟨h1, h2⟩ := visionCatFold_inv fps f visionCategories hfps st hacc hcur1
    apply ih hsort2
    · exact h1
    · intro ev hev
      exact ⟨(h2 ev hev).1, fun g hg => le_trans (h2 ev hev).2 (hp g hg)⟩

/-- No emitted vision timeline event has `end < start` (frames in timestamp
order, positive fps). -/
theorem buildVisionTimeline_end_ge_start (frames : List FrameResult) (fps : ℚ)
    (hfps : 0 < fps)
    (hsort : frames.Pairwise (fun a b => a.timestamp ≤ b.timestamp)) :
    ∀ e ∈ buildVisionTimelineEnhanced frames fps, e.start ≤ e.end_ := by
  have hdef : buildVisionTimelineEnhanced frames fps =
      (frames.foldl (fun acc frame =>
        visionCategories.foldl (visionTimelineStep fps frame) acc) ([], none)).1 ++
      (frames.foldl (fun acc frame =>
        visionCategories.foldl (visionTimelineStep fps frame) acc) ([], none)).2.toList :=
    rfl
  obtain ⟨h1, h2⟩ := visionFrameFold_inv fps hfps frames hsort ([], none)
    (by simp) (by simp)
  intro e he
  rw [hdef] at he
  rcases List.mem_append.mp he with h | h
  · exact h1 e h
  · apply h2 e
    cases hst : (frames.foldl (fun acc frame =>
        visionCategories.foldl (visionTimelineStep fps frame) acc) ([], none)).2 with
    | none => rw [hst] at h; simp [Option.toList] at h
    | some ev =>
      rw [hst] at h
      simp only [Option.toList, List.mem_singleton] at h
      rw [h]

/-- A frame with only a nudity signal (used for the C6 concrete scenarios). -/
def nudityFrame (i : ℕ) (t s : ℚ) : FrameResult :=
  ⟨i, t, s, 0, 0, 0, 0, [], none, none, none⟩

/-- On a nudity-only frame the inner category fold is just the nudity step. -/
theorem catFold_nudityFrame (fps : ℚ) (i : ℕ) (t s : ℚ)
    (st : List TimelineEvent × Option TimelineEvent) :
    visionCategories.foldl (visionTimelineStep fps (nudityFrame i t s)) st =
      visionTimelineStep fps (nudityFrame i t s) st "nudity" := by
  simp only [visionCategories, List.foldl_cons, List.foldl_nil]
  rw [visionTimelineStep_skip fps (nudityFrame i t s) _ "violence"
        (by simp [frameCatScore, nudityFrame]),
      visionTimelineStep_skip fps (nudityFrame i t s) _ "weapons"
        (by simp [frameCatScore, nudityFrame]),
      visionTimelineStep_skip fps (nudityFrame i t s) _ "sexual_content"
        (by simp [frameCatScore, nudityFrame]),
      visionTimelineStep_skip fps (nudityFrame i t s) _ "drug_use"
        (by simp [frameCatScore, nudityFrame])]

/-- Two flagged same-category frames with gap (to the open event's end) under
2 seconds merge into one event whose score is the max and whose end is the
second timestamp plus `1/fps`. -/
theorem buildVisionTimeline_two_merge (fps t u s1 s2 : ℚ) (_hfps : 0 < fps)
    (h1 : 1/4 < s1) (h2 : 1/4 < s2) (hgap : u - (t + 1/fps) < 2) :
    ∃ e, buildVisionTimelineEnhanced [nudityFrame 0 t s1, nudityFrame 1 u s2] fps = [e] ∧
      e.start = t ∧ e.end_ = u + 1/fps ∧ e.category = "nudity" ∧ e.score = max s1 s2 := by
  have h1' : frameCatScore (nudityFrame 0 t s1) "nudity" > 1/4 := h1
  have h2' : frameCatScore (nudityFrame 1 u s2) "nudity" > 1/4 := h2
  have hgap' : (nudityFrame 1 u s2).timestamp -
      (newVisionEvent (nudityFrame 0 t s1) "nudity"
        (frameCatScore (nudityFrame 0 t s1) "nudity") fps).end_ < 2 := hgap
  have hcat' : (newVisionEvent (nudityFrame 0 t s1) "nudity"
      (frameCatScore (nudityFrame 0 t s1) "nudity") fps).category = "nudity" := rfl
  have hfold : ([nudityFrame 0 t s1, nudityFrame 1 u s2].foldl
      (fun acc frame => visionCategories.foldl (visionTimelineStep fps frame) acc)
      ([], none)) =
      (([] : List TimelineEvent),
        some { newVisionEvent (nudityFrame 0 t s1) "nudity"
                 (frameCatScore (nudityFrame 0 t s1) "nudity") fps with
               end_ := (nudityFrame 1 u s2).timestamp + 1/fps,
               score := max (newVisionEvent (nudityFrame 0 t s1) "nudity"
                 (frameCatScore (nudityFrame 0 t s1) "nudity") fps).score
                 (frameCatScore (nudityFrame 1 u s2) "nudity") }) := by
    simp only [List.foldl_cons, List.foldl_nil]
    rw [catFold_nudityFrame, catFold_nudityFrame,
        visionTimelineStep_open fps (nudityFrame 0 t s1) ([], none) "nudity" h1' rfl,
        visionTimelineStep_extend fps (nudityFrame 1 u s2)
          ([], some (newVisionEvent (nudityFrame 0 t s1) "nudity"
            (frameCatScore (nudityFrame 0 t s1) "nudity") fps)) "nudity"
          (newVisionEvent (nudityFrame 0 t s1) "nudity"
            (frameCatScore (nudityFrame 0 t s1) "nudity") fps)
          h2' rfl ⟨hcat', hgap'⟩]
  refine ⟨{ newVisionEvent (nudityFrame 0 t s1) "nudity"
              (frameCatScore (nudityFrame 0 t s1) "nudity") fps with
            end_ := (nudityFrame 1 u s2).timestamp + 1/fps,
            score := max (newVisionEvent (nudityFrame 0 t s1) "nudity"
              (frameCatScore (nudityFrame 0 t s1) "nudity") fps).score
              (frameCatScore (nudityFrame 1 u s2) "nudity") }, ?_, rfl, rfl, rfl, rfl⟩
  show ([nudityFrame 0 t s1, nudityFrame 1 u s2].foldl
      (fun acc frame => visionCategories.foldl (visionTimelineStep fps frame) acc)
      ([], none)).1 ++
    ([nudityFrame 0 t s1, nudityFrame 1 u s2].foldl
      (fun acc frame => visionCategories.foldl (visionTimelineStep fps frame) acc)
      ([], none)).2.toList = _
  rw [hfold]
  rfl

/-- Two flagged same-category frames with gap (to the open event's end) of at
least 2 seconds produce two events. -/
theorem buildVisionTimeline_two_split (fps t u s1 s2 : ℚ) (_hfps : 0 < fps)
    (h1 : 1/4 < s1) (h2 : 1/4 < s2) (hgap : ¬ u - (t + 1/fps) < 2) :
    (buildVisionTimelineEnhanced [nudityFrame 0 t s1, nudityFrame 1 u s2] fps).length
      = 2 := by
  have h1' : frameCatScore (nudityFrame 0 t s1) "nudity" > 1/4 := h1
  have h2' : frameCatScore (nudityFrame 1 u s2) "nudity" > 1/4 := h2
  have hgap' : ¬ ((newVisionEvent (nudityFrame 0 t s1) "nudity"
      (frameCatScore (nudityFrame 0 t s1) "nudity") fps).category = "nudity" ∧
      (nudityFrame 1 u s2).timestamp -
        (newVisionEvent (nudityFrame 0 t s1) "nudity"
          (frameCatScore (nudityFrame 0 t s1) "nudity") fps).end_ < 2) := by
    intro hcontra
    exact hgap hcontra.2
  have hfold : ([nudityFrame 0 t s1, nudityFrame 1 u s2].foldl
      (fun acc frame => visionCategories.foldl (visionTimelineStep fps frame) acc)
      ([], none)) =
      (([] : List TimelineEvent) ++ [newVisionEvent (nudityFrame 0 t s1) "nudity"
          (frameCatScore (nudityFrame 0 t s1) "nudity") fps],
        some (newVisionEvent (nudityFrame 1 u s2) "nudity"
          (frameCatScore (nudityFrame 1 u s2) "nudity") fps)) := by
    simp only [List.foldl_cons, List.foldl_nil]
    rw [catFold_nudityFrame, catFold_nudityFrame,
        visionTimelineStep_open fps (nudityFrame 0 t s1) ([], none) "nudity" h1' rfl,
        visionTimelineStep_close fps (nudityFrame 1 u s2)
          ([], some (newVisionEvent (nudityFrame 0 t s1) "nudity"
            (frameCatScore (nudityFrame 0 t s1) "nudity") fps)) "nudity"
          (newVisionEvent (nudityFrame 0 t s1) "nudity"
            (frameCatScore (nudityFrame 0 t s1) "nudity") fps)
          h2' rfl hgap']
  show (([nudityFrame 0 t s1, nudityFrame 1 u s2].foldl
      (fun acc frame => visionCategories.foldl (visionTimelineStep fps frame) acc)
      ([], none)).1 ++
    ([nudityFrame 0 t s1, nudityFrame 1 u s2].foldl
      (fun acc frame => visionCategories.foldl (visionTimelineStep fps frame) acc)
      ([], none)).2.toList).length = 2
  rw [hfold]
  rfl

/-- C6, counterexample to the claim as stated: two nudity frames 3 seconds
apart (timestamps 0 and 3), at the long-video sampling rate `fps = 0.5`
(`1/fps = 2`), are merged into ONE event — the gap the code tests is to the
open event's end (`3 - (0 + 2) = 1 < 2`), not to the previous flagged frame's
timestamp — where the claim demands two events. -/
theorem c6_counterexample :
    (nudityFrame 1 3 (3/10)).timestamp - (nudityFrame 0 0 (3/10)).timestamp = 3 ∧
    ¬ (buildVisionTimelineEnhanced [nudityFrame 0 0 (3/10), nudityFrame 1 3 (3/10)]
        (1/2)).length = 2 := by
  obtain ⟨e, he, -, -, -, -⟩ := buildVisionTimeline_two_merge (1/2) 0 3 (3/10) (3/10)
    (by norm_num) (by norm_num) (by norm_num) (by norm_num)
  constructor
  · norm_num [nudityFrame]
  · rw [he]
    simp

/-- C6 (amended): events never have `end < start` (timestamp-sorted frames,
positive fps); a frame scoring above 0.25 opens or extends an event; an open
same-category event is extended exactly when the gap from the new frame's
timestamp to the open event's END (the previous flagged frame's timestamp plus
one inter-frame interval `1/fps`) is under 2 seconds, otherwise it is closed
and a new one starts, the closed event's score being the maximum seen; hence
two same-category frames 1.5 s apart always merge into one event, and two
same-category frames 3 s apart produce two events whenever `fps ≥ 1`. -/
theorem c6_vision_timeline :
    (∀ (frames : List FrameResult) (fps : ℚ), 0 < fps →
      frames.Pairwise (fun a b => a.timestamp ≤ b.timestamp) →
      ∀ e ∈ buildVisionTimelineEnhanced frames fps, e.start ≤ e.end_) ∧
    (∀ fps t u s1 s2 : ℚ, 0 < fps → 1/4 < s1 → 1/4 < s2 → u - (t + 1/fps) < 2 →
      ∃ e, buildVisionTimelineEnhanced [nudityFrame 0 t s1, nudityFrame 1 u s2] fps
          = [e] ∧
        e.start = t ∧ e.end_ = u + 1/fps ∧ e.category = "nudity" ∧
        e.score = max s1 s2) ∧
    (∀ fps t u s1 s2 : ℚ, 0 < fps → 1/4 < s1 → 1/4 < s2 → ¬ u - (t + 1/fps) < 2 →
      (buildVisionTimelineEnhanced [nudityFrame 0 t s1, nudityFrame 1 u s2] fps).length
        = 2) ∧
    (∀ fps t s1 s2 : ℚ, 0 < fps → 1/4 < s1 → 1/4 < s2 →
      ∃ e, buildVisionTimelineEnhanced
          [nudityFrame 0 t s1, nudityFrame 1 (t + 3/2) s2] fps = [e] ∧
        e.score = max s1 s2) ∧
    (∀ fps t s1 s2 : ℚ, 1 ≤ fps → 1/4 < s1 → 1/4 < s2 →
      (buildVisionTimelineEnhanced [nudityFrame 0 t s1, nudityFrame 1 (t + 3) s2]
        fps).length = 2) := by
  refine ⟨?_, ?_, ?_, ?_, ?_⟩
  · intro frames fps hfps hsort
    exact buildVisionTimeline_end_ge_start frames fps hfps hsort
  · intro fps t u s1 s2 hfps h1 h2 hgap
    exact buildVisionTimeline_two_merge fps t u s1 s2 hfps h1 h2 hgap
  · intro fps t u s1 s2 hfps h1 h2 hgap
    exact buildVisionTimeline_two_split fps t u s1 s2 hfps h1 h2 hgap
  · intro fps t s1 s2 hfps h1 h2
    have hgap : (t + 3/2) - (t + 1/fps) < 2 := by
      have : (0:ℚ) < 1/fps := by positivity
      linarith
    obtain ⟨e, he, -, -, -, hs⟩ := buildVisionTimeline_two_merge fps t (t + 3/2) s1 s2
      hfps h1 h2 hgap
    exact ⟨e, he, hs⟩
  · intro fps t s1 s2 hfps h1 h2
    have hfps0 : (0:ℚ) < fps := lt_of_lt_of_le one_pos hfps
    have hgap : ¬ (t + 3) - (t + 1/fps) < 2 := by
      have hle : 1/fps ≤ 1 := by
        rw [div_le_one hfps0]
        exact hfps
      linarith
    exact buildVisionTimeline_two_split fps t (t + 3) s1 s2 hfps0 h1 h2 hgap

/-- C6, witness: frames at `t = 0` and `t = 3` with scores 0.5 at `fps = 1`
give two events; frames 1.5 s apart at `fps = 2` give one event. -/
theorem c6_witness :
    (buildVisionTimelineEnhanced [nudityFrame 0 0 (1/2), nudityFrame 1 3 (1/2)]
      1).length = 2 ∧
    (buildVisionTimelineEnhanced [nudityFrame 0 0 (1/2), nudityFrame 1 (3/2) (1/2)]
      2).length = 1 := by
  constructor
  · have h := c6_vision_timeline.2.2.2.2 1 0 (1/2) (1/2) (by norm_num) (by norm_num)
      (by norm_num)
    rw [show (0 : ℚ) + 3 = 3 by norm_num] at h
    exact h
  · have h := c6_vision_timeline.2.2.2.1 2 0 (1/2) (1/2) (by norm_num) (by norm_num)
      (by norm_num)
    obtain ⟨e, he, -⟩ := h
    rw [show (0 : ℚ) + 3/2 = 3/2 by norm_num] at he
    rw [he]
    rfl

/-! ## The fallback analyzers satisfy the `[0,1]` frame-score range assumed by
C4 and C5 (the remote endpoint guarantees it contractually). -/

theorem jsFracAbs_mem (x : ℚ) : 0 ≤ jsFracAbs x ∧ jsFracAbs x < 1 := by
  unfold jsFracAbs
  have h1 : (0:ℚ) ≤ x - (⌊x⌋ : ℚ) := by
    have := Int.floor_le x
    linarith
  have h2 : x - (⌊x⌋ : ℚ) < 1 := by
    have := Int.lt_floor_add_one x
    linarith
  rw [abs_of_nonneg h1]
  exact ⟨h1, h2⟩

theorem simulateRandom_mem (sinq : ℚ → ℚ) (seed o : ℚ) :
    0 ≤ simulateRandom sinq seed o ∧ simulateRandom sinq seed o < 1 := by
  show 0 ≤ sinq (seed + o) * 10000 - (⌊sinq (seed + o) * 10000⌋ : ℚ) ∧
    sinq (seed + o) * 10000 - (⌊sinq (seed + o) * 10000⌋ : ℚ) < 1
  constructor
  · have := Int.floor_le (sinq (seed + o) * 10000)
    linarith
  · have := Int.lt_floor_add_one (sinq (seed + o) * 10000)
    linarith

theorem enhancedRandom_mem (sinq : ℚ → ℚ) (seed o : ℚ) :
    0 ≤ enhancedRandom sinq seed o ∧ enhancedRandom sinq seed o < 1 :=
  jsFracAbs_mem _

theorem simulateFrameAnalysis_scores_in_unit (sinq : ℚ → ℚ) (i : ℕ) :
    ∀ c ∈ visionCategories, 0 ≤ frameCatScore (simulateFrameAnalysis sinq i) c ∧
      frameCatScore (simulateFrameAnalysis sinq i) c ≤ 1 := by
  intro c hc
  simp only [visionCategories, List.mem_cons, List.not_mem_nil, or_false] at hc
  have h4 := simulateRandom_mem sinq ((i : ℚ) * 12345) 4
  have h6 := simulateRandom_mem sinq ((i : ℚ) * 12345) 6
  have h8 := simulateRandom_mem sinq ((i : ℚ) * 12345) 8
  have h10 := simulateRandom_mem sinq ((i : ℚ) * 12345) 10
  rcases hc with rfl | rfl | rfl | rfl | rfl <;>
    simp [frameCatScore, simulateFrameAnalysis] <;>
    split_ifs <;>
    constructor <;>
    first
      | positivity
      | linarith [h4.1, h4.2, h6.1, h6.2, h8.1, h8.2, h10.1, h10.2]

set_option maxHeartbeats 2000000 in
theorem analyzeFrameEnhanced_scores_in_unit (sinq : ℚ → ℚ) (i : ℕ) (t : ℚ)
    (stat : Option ℕ) :
    ∀ c ∈ visionCategories, 0 ≤ frameCatScore (analyzeFrameEnhanced sinq i t stat) c ∧
      frameCatScore (analyzeFrameEnhanced sinq i t stat) c ≤ 1 := by
  cases stat with
  | none => exact simulateFrameAnalysis_scores_in_unit sinq i
  | some sz =>
    intro c hc
    have hcf : 0 ≤ min ((sz : ℚ) / 50000) 1 ∧ min ((sz : ℚ) / 50000) 1 ≤ 1 :=
      ⟨le_min (by positivity) (by norm_num), min_le_right _ _⟩
    have hr1 := enhancedRandom_mem sinq ((i : ℚ) * 7919 + (⌊t * 1000⌋ : ℚ)) 1
    have hr2 := enhancedRandom_mem sinq ((i : ℚ) * 7919 + (⌊t * 1000⌋ : ℚ)) 2
    have hr3 := enhancedRandom_mem sinq ((i : ℚ) * 7919 + (⌊t * 1000⌋ : ℚ)) 3
    have hr5 := enhancedRandom_mem sinq ((i : ℚ) * 7919 + (⌊t * 1000⌋ : ℚ)) 5
    have hr6 := enhancedRandom_mem sinq ((i : ℚ) * 7919 + (⌊t * 1000⌋ : ℚ)) 6
    have hr8 := enhancedRandom_mem sinq ((i : ℚ) * 7919 + (⌊t * 1000⌋ : ℚ)) 8
    have hr9 := enhancedRandom_mem sinq ((i : ℚ) * 7919 + (⌊t * 1000⌋ : ℚ)) 9
    have hr11 := enhancedRandom_mem sinq ((i : ℚ) * 7919 + (⌊t * 1000⌋ : ℚ)) 11
    have hnud : 0 ≤ (if enhancedRandom sinq ((i : ℚ) * 7919 + (⌊t * 1000⌋ : ℚ)) 1 *
          min ((sz : ℚ) / 50000) 1 > 6/10
        then enhancedRandom sinq ((i : ℚ) * 7919 + (⌊t * 1000⌋ : ℚ)) 2 * (7/10) + 2/10
        else enhancedRandom sinq ((i : ℚ) * 7919 + (⌊t * 1000⌋ : ℚ)) 3 * (15/100)) ∧
        (if enhancedRandom sinq ((i : ℚ) * 7919 + (⌊t * 1000⌋ : ℚ)) 1 *
          min ((sz : ℚ) / 50000) 1 > 6/10
        then enhancedRandom sinq ((i : ℚ) * 7919 + (⌊t * 1000⌋ : ℚ)) 2 * (7/10) + 2/10
        else enhancedRandom sinq ((i : ℚ) * 7919 + (⌊t * 1000⌋ : ℚ)) 3 * (15/100))
          ≤ 9/10 := by
      split_ifs <;> constructor <;> nlinarith [hr2.1, hr2.2, hr3.1, hr3.2]
    have hsexB : 0 ≤ enhancedRandom sinq ((i : ℚ) * 7919 + (⌊t * 1000⌋ : ℚ)) 9 *
          min ((sz : ℚ) / 50000) 1 * (4/10) ∧
        enhancedRandom sinq ((i : ℚ) * 7919 + (⌊t * 1000⌋ : ℚ)) 9 *
          min ((sz : ℚ) / 50000) 1 * (4/10) ≤ 1 := by
      constructor
      · have := hr9.1
        have := hcf.1
        positivity
      · nlinarith [hr9.1, hr9.2, hcf.1, hcf.2]
    simp only [visionCategories, List.mem_cons, List.not_mem_nil, or_false] at hc
    rcases hc with rfl | rfl | rfl | rfl | rfl
    · show 0 ≤ round2 (if enhancedRandom sinq ((i : ℚ) * 7919 + (⌊t * 1000⌋ : ℚ)) 1 *
            min ((sz : ℚ) / 50000) 1 > 6/10
          then enhancedRandom sinq ((i : ℚ) * 7919 + (⌊t * 1000⌋ : ℚ)) 2 * (7/10) + 2/10
          else enhancedRandom sinq ((i : ℚ) * 7919 + (⌊t * 1000⌋ : ℚ)) 3 * (15/100)) ∧
        round2 (if enhancedRandom sinq ((i : ℚ) * 7919 + (⌊t * 1000⌋ : ℚ)) 1 *
            min ((sz : ℚ) / 50000) 1 > 6/10
          then enhancedRandom sinq ((i : ℚ) * 7919 + (⌊t * 1000⌋ : ℚ)) 2 * (7/10) + 2/10
          else enhancedRandom sinq ((i : ℚ) * 7919 + (⌊t * 1000⌋ : ℚ)) 3 * (15/100)) ≤ 1
      exact ⟨round2_nonneg hnud.1, round2_le_one (hnud.2.trans (by norm_num))⟩
    · show 0 ≤ round2 (if enhancedRandom sinq ((i : ℚ) * 7919 + (⌊t * 1000⌋ : ℚ)) 4 *
            min ((sz : ℚ) / 50000) 1 > 7/10
          then enhancedRandom sinq ((i : ℚ) * 7919 + (⌊t * 1000⌋ : ℚ)) 5 * (1/2) + 1/10
          else enhancedRandom sinq ((i : ℚ) * 7919 + (⌊t * 1000⌋ : ℚ)) 6 * (1/10)) ∧
        round2 (if enhancedRandom sinq ((i : ℚ) * 7919 + (⌊t * 1000⌋ : ℚ)) 4 *
            min ((sz : ℚ) / 50000) 1 > 7/10
          then enhancedRandom sinq ((i : ℚ) * 7919 + (⌊t * 1000⌋ : ℚ)) 5 * (1/2) + 1/10
          else enhancedRandom sinq ((i : ℚ) * 7919 + (⌊t * 1000⌋ : ℚ)) 6 * (1/10)) ≤ 1
      constructor
      · apply round2_nonneg
        split_ifs <;> nlinarith [hr5.1, hr6.1]
      · apply round2_le_one
        split_ifs <;> nlinarith [hr5.2, hr6.2, hr5.1, hr6.1]
    · show 0 ≤ round2 (if enhancedRandom sinq ((i : ℚ) * 7919 + (⌊t * 1000⌋ : ℚ)) 7
            > 9/10
          then enhancedRandom sinq ((i : ℚ) * 7919 + (⌊t * 1000⌋ : ℚ)) 8 * (6/10) + 2/10
          else 0) ∧
        round2 (if enhancedRandom sinq ((i : ℚ) * 7919 + (⌊t * 1000⌋ : ℚ)) 7 > 9/10
          then enhancedRandom sinq ((i : ℚ) * 7919 + (⌊t * 1000⌋ : ℚ)) 8 * (6/10) + 2/10
          else 0) ≤ 1
      constructor
      · apply round2_nonneg
        split_ifs <;> nlinarith [hr8.1]
      · apply round2_le_one
        split_ifs <;> nlinarith [hr8.1, hr8.2]
    · show 0 ≤ round2 (max ((if enhancedRandom sinq ((i : ℚ) * 7919 + (⌊t * 1000⌋ : ℚ)) 1 *
              min ((sz : ℚ) / 50000) 1 > 6/10
            then enhancedRandom sinq ((i : ℚ) * 7919 + (⌊t * 1000⌋ : ℚ)) 2 * (7/10) + 2/10
            else enhancedRandom sinq ((i : ℚ) * 7919 + (⌊t * 1000⌋ : ℚ)) 3 * (15/100))
              * (8/10))
          (enhancedRandom sinq ((i : ℚ) * 7919 + (⌊t * 1000⌋ : ℚ)) 9 *
            min ((sz : ℚ) / 50000) 1 * (4/10))) ∧
        round2 (max ((if enhancedRandom sinq ((i : ℚ) * 7919 + (⌊t * 1000⌋ : ℚ)) 1 *
              min ((sz : ℚ) / 50000) 1 > 6/10
            then enhancedRandom sinq ((i : ℚ) * 7919 + (⌊t * 1000⌋ : ℚ)) 2 * (7/10) + 2/10
            else enhancedRandom sinq ((i : ℚ) * 7919 + (⌊t * 1000⌋ : ℚ)) 3 * (15/100))
              * (8/10))
          (enhancedRandom sinq ((i : ℚ) * 7919 + (⌊t * 1000⌋ : ℚ)) 9 *
            min ((sz : ℚ) / 50000) 1 * (4/10))) ≤ 1
      constructor
      · apply round2_nonneg
        apply le_max_of_le_left
        nlinarith [hnud.1]
      · apply round2_le_one
        apply max_le
        · nlinarith [hnud.2, hnud.1]
        · exact hsexB.2
    · show 0 ≤ round2 (if enhancedRandom sinq ((i : ℚ) * 7919 + (⌊t * 1000⌋ : ℚ)) 10
            > 95/100
          then enhancedRandom sinq ((i : ℚ) * 7919 + (⌊t * 1000⌋ : ℚ)) 11 * (4/10)
          else 0) ∧
        round2 (if enhancedRandom sinq ((i : ℚ) * 7919 + (⌊t * 1000⌋ : ℚ)) 10 > 95/100
          then enhancedRandom sinq ((i : ℚ) * 7919 + (⌊t * 1000⌋ : ℚ)) 11 * (4/10)
          else 0) ≤ 1
      constructor
      · apply round2_nonneg
        split_ifs <;> nlinarith [hr11.1]
      · apply round2_le_one
        split_ifs <;> nlinarith [hr11.1, hr11.2]
